import Mathlib

/-!
Verification of the down-sampling core of the `magellan` package
(`magellan/sampler/down_sample.py`) together with the catalog-manager
functions it calls (`magellan/catalog/catalog_manager.py`).

The Python code is shallowly embedded:
* a pandas `DataFrame` becomes a record of an integer row-label list, a row
  list, and the positions of its string (object-dtype) columns;
* Python sets are embedded as duplicate-free lists built by
  insert-if-absent, matching `set.add` / `set.update` semantics and giving a
  concrete enumeration for `list(s)`;
* the pseudo-random draws (`random.choice`, `random.randint`,
  `np.random.choice`) are parameterised by the realized draw streams: a
  list of naturals per rejection loop and a realized permutation for the
  without-replacement sample;
* a Python call either returns, raises, or loops forever; this is the
  `PyResult` type below (`ok` / `exn` / `hang`).
-/

namespace Magellan

/-- Outcome of running a piece of Python code: normal return, a raised
exception (carrying its message), or non-termination (`hang`, used when a
rejection-sampling loop runs out of realized draws before reaching its
target, i.e. the realized stream would make the `while` loop spin). -/
inductive PyResult (α : Type) where
  | ok : α → PyResult α
  | exn : String → PyResult α
  | hang : PyResult α
deriving DecidableEq, Repr

/-- Sequencing of two Python computations: an exception or divergence in the
first step propagates. -/
def PyResult.bind {α β : Type} : PyResult α → (α → PyResult β) → PyResult β
  | .ok a, f => f a
  | .exn m, _ => .exn m
  | .hang, _ => .hang

/-- A computation that returned normally. -/
def PyResult.isOk {α : Type} : PyResult α → Bool
  | .ok _ => true
  | _ => false

@[simp] theorem PyResult.bind_ok {α β : Type} (a : α) (f : α → PyResult β) :
    PyResult.bind (.ok a) f = f a := rfl

@[simp] theorem PyResult.bind_exn {α β : Type} (m : String) (f : α → PyResult β) :
    PyResult.bind (.exn m) f = .exn m := rfl

@[simp] theorem PyResult.bind_hang {α β : Type} (f : α → PyResult β) :
    PyResult.bind .hang f = .hang := rfl

theorem PyResult.bind_eq_ok {α β : Type} {x : PyResult α} {f : α → PyResult β} {b : β} :
    PyResult.bind x f = .ok b ↔ ∃ a, x = .ok a ∧ f a = .ok b := by
  cases x <;> simp [PyResult.bind]

theorem PyResult.isOk_iff {α : Type} {x : PyResult α} :
    x.isOk = true ↔ ∃ a, x = .ok a := by
  cases x <;> simp [PyResult.isOk]

/-- A cell value of a table: a string cell (object dtype) or a non-textual
cell (embedded as an integer). -/
inductive Value where
  | vStr : String → Value
  | vInt : Int → Value
deriving DecidableEq, Repr

/-- Python `str(...)` on a cell value. -/
def pyStr : Value → String
  | .vStr s => s
  | .vInt n => toString n

/-- A row is the list of its cell values in column order. -/
abbrev Row := List Value

/-- Embedding of a pandas DataFrame: its integer row labels (the index), its
rows in order, and the positions of its object-dtype (string) columns,
which is what `table.columns[table.dtypes == object]` resolves to. -/
structure DataFrame where
  labels : List Int
  rows : List Row
  strCols : List Nat
deriving DecidableEq, Repr

/-- An argument passed to `down_sample`: either an actual DataFrame or any
other Python object (which fails the `isinstance` checks). -/
inductive PyObj where
  | df : DataFrame → PyObj
  | notDf : PyObj
deriving DecidableEq, Repr

/-! ### String helpers (Python `str.lower`, `str.rstrip`, `str.split`) -/

/-- Python `str.lower()`. -/
def pyLower (s : String) : String := ⟨s.data.map Char.toLower⟩

/-- Python `str.rstrip()`: drop trailing whitespace. -/
def pyRstrip (s : String) : String := ⟨(s.data.reverse.dropWhile Char.isWhitespace).reverse⟩

/-- Helper for whitespace splitting: `acc` holds the current in-progress
token reversed. -/
def splitWsAux : List Char → List Char → List String
  | [], acc => if acc = [] then [] else [⟨acc.reverse⟩]
  | c :: cs, acc =>
    if c.isWhitespace then
      if acc = [] then splitWsAux cs [] else (⟨acc.reverse⟩ : String) :: splitWsAux cs []
    else splitWsAux cs (c :: acc)

/-- Python `str.split()` with no argument: split on whitespace runs,
yielding no empty tokens. -/
def pySplitWs (s : String) : List String := splitWsAux s.data []

/-! ### Python sets as duplicate-free lists -/

/-- Python `set.add`: insert if absent (the enumeration order of a set is
arbitrary; this embedding fixes insertion order). -/
def pyInsert {α : Type} [DecidableEq α] (l : List α) (x : α) : List α :=
  if x ∈ l then l else l ++ [x]

/-- Python `set.update(xs)`: add each element of `xs` if absent. -/
def listUnion (l : List Nat) (xs : List Nat) : List Nat := xs.foldl pyInsert l

/-- Deduplicate a token list, keeping first occurrences: `set(l)`. -/
def strDedup (l : List String) : List String := l.foldl pyInsert []

/-! ### Tokenizer (shared body of `_inv_index` and `_probe_index`) -/

/-- Concatenation step of the tokenizer: for every string-column position,
append `str(row[i]).lower()` and a space, then `rstrip` the result. -/
def rowConcat (strColsIx : List Nat) (row : Row) : String :=
  pyRstrip (strColsIx.foldl (fun acc i => acc ++ pyLower (pyStr (row.getD i (.vStr ""))) ++ " ") "")

/-- Tokenize one row: `set(str_val.split()).difference(stop_words)`. -/
def tokenizeRow (sw : List String) (strColsIx : List Nat) (row : Row) : List String :=
  (strDedup (pySplitWs (rowConcat strColsIx row))).filter (fun t => t ∉ sw)

/-! ### Inverted index (`_inv_index`), dict embedded as an association list -/

/-- Append `pos` to the posting list of `token`, creating the entry on first
occurrence (`inv_index.get` / `lst.append` in `_inv_index`). -/
def dictAppend : List (String × List Nat) → String → Nat → List (String × List Nat)
  | [], token, pos => [(token, [pos])]
  | (t, l) :: rest, token, pos =>
    if t = token then (t, l ++ [pos]) :: rest else (t, l) :: dictAppend rest token pos

/-- Dict lookup (`s_inv_index.get(token, None)`). -/
def dictFind : List (String × List Nat) → String → Option (List Nat)
  | [], _ => none
  | (t, l) :: rest, token => if t = token then some l else dictFind rest token

/-- The row scan of `_inv_index`: tokenize each row and add its position to
the posting list of each of its tokens; `pos` counts rows from 0. -/
def indexRows (sw : List String) (strColsIx : List Nat) :
    List Row → Nat → List (String × List Nat) → List (String × List Nat)
  | [], _, inv => inv
  | row :: rest, pos, inv =>
    indexRows sw strColsIx rest (pos + 1)
      ((tokenizeRow sw strColsIx row).foldl (fun acc tok => dictAppend acc tok pos) inv)

/-- `_get_str_cols_list(table)`: raises on an empty table, otherwise returns
the string-column positions. -/
def getStrColsList (t : DataFrame) : PyResult (List Nat) :=
  if t.rows.length = 0 then .exn "_get_str_cols_list: Size of the input table is 0"
  else .ok t.strCols

/-- `_inv_index(table)`: build the inverted index of the table (the stop-word
set `sw` is the content of the loaded stop-word resource). -/
def invIndexE (sw : List String) (t : DataFrame) : PyResult (List (String × List Nat)) :=
  (getStrColsList t).bind fun cols => .ok (indexRows sw cols t.rows 0 [])

/-! ### Probe (`_probe_index`): candidate pool and rejection-sampling loops -/

/-- The candidate pool of one probed row: `match.update(ids)` over the
row's tokens, for those tokens present in the index.  A Python set; here a
duplicate-free list. -/
def candsOf (inv : List (String × List Nat)) (toks : List String) : List Nat :=
  toks.foldl
    (fun m tok =>
      match dictFind inv tok with
      | some ids => listUnion m ids
      | none => m) []

/-- The first rejection loop of `_probe_index`:
`while len(smpl_pos_neg) < k: smpl_pos_neg.add(random.choice(match))`.
`ds` is the realized stream of draws of `random.choice` (as indices into the
pool list); if the stream is exhausted while the loop guard still holds, the
real loop would keep running, which is `none`. -/
def drawMatchLoop (pool : List Nat) (k : Int) : List Nat → List Nat → Option (List Nat)
  | s, [] => if (s.length : Int) < k then none else some s
  | s, i :: rest =>
    if (s.length : Int) < k then
      drawMatchLoop pool k (pyInsert s (pool.getD (i % pool.length) 0)) rest
    else some s

/-- The second rejection loop of `_probe_index`:
`while len(smpl_pos_neg) < y_param: smpl_pos_neg.add(randint(0, s_tbl_sz - 1))`.
A draw `r` realizes the value `r % univ` in `[0, univ)`; `randint(0, -1)`
(empty table A) raises, and exhausting the realized stream with the guard
still true is non-termination. -/
def drawFillLoop (univ : Nat) (total : Int) : List Nat → List Nat → PyResult (List Nat)
  | s, [] => if (s.length : Int) < total then .hang else .ok s
  | s, r :: rest =>
    if (s.length : Int) < total then
      if univ = 0 then .exn "ValueError: empty range for randrange()"
      else drawFillLoop univ total (pyInsert s (r % univ)) rest
    else .ok s

/-- Per-row selection of `_probe_index` given the row's token set:
`y_pos = math.floor(y_param / 2)`, the candidate pool, `k = min(y_pos,
len(match))`, the match-draw loop and then the random fill. -/
def probeRowTokens (inv : List (String × List Nat)) (yParam : Int) (univ : Nat)
    (toks : List String) (ds1 ds2 : List Nat) : PyResult (List Nat) :=
  let cands := candsOf inv toks
  let k : Int := min (Int.fdiv yParam 2) (cands.length : Int)
  match drawMatchLoop cands k [] ds1 with
  | none => .hang
  | some s1 => drawFillLoop univ yParam s1 ds2

/-- Per-row step of `_probe_index`: tokenize the row, then select. -/
def probeRow (sw : List String) (strColsIx : List Nat) (inv : List (String × List Nat))
    (yParam : Int) (univ : Nat) (row : Row) (ds1 ds2 : List Nat) : PyResult (List Nat) :=
  probeRowTokens inv yParam univ (tokenizeRow sw strColsIx row) ds1 ds2

/-- The row loop of `_probe_index`: probe each row with its own realized
draw streams (`streams i` for the i-th probed row) and union the per-row
selection into the accumulator `h_table`. -/
def probeRows (sw : List String) (strColsIx : List Nat) (inv : List (String × List Nat))
    (yParam : Int) (univ : Nat) (streams : Nat → List Nat × List Nat) :
    List Row → Nat → List Nat → PyResult (List Nat)
  | [], _, hTable => .ok hTable
  | row :: rest, i, hTable =>
    (probeRow sw strColsIx inv yParam univ row (streams i).1 (streams i).2).bind fun smpl =>
      probeRows sw strColsIx inv yParam univ streams rest (i + 1) (listUnion hTable smpl)

/-- `_probe_index(table_b, y_param, s_tbl_sz, s_inv_index)`: string-column
extraction (raises on an empty frame), then the row loop starting from the
empty accumulator. -/
def probeIndexE (sw : List String) (tableB : DataFrame) (yParam : Int) (sTblSz : Nat)
    (sInvIndex : List (String × List Nat)) (streams : Nat → List Nat × List Nat) :
    PyResult (List Nat) :=
  (getStrColsList tableB).bind fun strColsIx =>
    probeRows sw strColsIx sInvIndex yParam sTblSz streams tableB.rows 0 []

/-! ### Embedded pandas / numpy operations used by `down_sample` -/

/-- Position of the first row whose label equals `l`. -/
def findPos : List Int → Int → Option Nat
  | [], _ => none
  | x :: xs, l => if x = l then some 0 else (findPos xs l).map (· + 1)

/-- Look up every requested label, failing if any is absent. -/
def findAllPos (labels : List Int) : List Int → Option (List Nat)
  | [] => some []
  | l :: ls =>
    match findPos labels l, findAllPos labels ls with
    | some p, some ps => some (p :: ps)
    | _, _ => none

/-- `table.ix[lbls]` on an integer-labelled frame: label-based row lookup
(the labels of the result are the requested ones).  For a label absent from
the index the library versions disagree (reindex-to-missing rows or
KeyError); it is embedded as an error, and nothing below rests on that
branch. -/
def ixSelect (t : DataFrame) (lbls : List Int) : PyResult DataFrame :=
  match findAllPos t.labels lbls with
  | some ps => .ok ⟨lbls, ps.map (fun p => t.rows.getD p []), t.strCols⟩
  | none => .exn "KeyError: labels not in index"

/-- The frame materialized by a positional selection: the labels and rows at
the given positions, the same columns. -/
def ilocFrame (t : DataFrame) (ps : List Nat) : DataFrame :=
  ⟨ps.map (fun p => t.labels.getD p 0), ps.map (fun p => t.rows.getD p []), t.strCols⟩

/-- `table.iloc[ps]`: positional row selection, raising when a position is
out of bounds; returns a new frame carrying the selected labels and rows. -/
def ilocSelect (t : DataFrame) (ps : List Nat) : PyResult DataFrame :=
  if ps.all (fun p => p < t.rows.length) then .ok (ilocFrame t ps)
  else .exn "IndexError: positional indexers are out-of-bounds"

/-- The default (RangeIndex) labels of a frame of `n` rows: label `i` at
ordinal position `i`. -/
def defaultLabels (n : Nat) : List Int := (List.range n).map Int.ofNat

/-- `np.random.choice(n, m, replace=False)`: `m` distinct draws from
`[0, n)`, realized as the first `m` entries of the realized draw order
`perm` (a permutation of `[0, n)` in the theorems that use it).  Negative
`m` and `m > n` raise exactly as in numpy. -/
def npRandomChoice (n : Nat) (m : Int) (perm : List Nat) : PyResult (List Nat) :=
  if m < 0 then .exn "ValueError: negative dimensions are not allowed"
  else if (n : Int) < m then
    .exn "ValueError: Cannot take a larger sample than population when replace is False"
  else .ok (perm.take m.toNat)

/-! ### Catalog (`catalog_manager.py`); the backing store class `Catalog`
itself lives in `magellan/catalog/catalog.py`, which is not among the
sources, and is modelled from the spec. -/

/-- Modelled from the spec: the backing catalog store (class `Catalog` of
`magellan/catalog/catalog.py`, absent from the sources) - a keyed property
store attached to tables, a mapping from table identity (`id(df)`, here an
explicit `Nat` handle) to a string-keyed property mapping. -/
structure Catalog where
  entries : List (Nat × List (String × String))
deriving DecidableEq, Repr

/-- Modelled from the spec: `is_df_info_present_in_catalog` - membership of
the table handle in the store. -/
def Catalog.isPresent (c : Catalog) (oid : Nat) : Bool :=
  c.entries.any (fun e => e.1 = oid)

/-- Modelled from the spec: the store side of `get_all_properties` - the
property mapping of an entry (the not-found check is done by the callers in
`catalog_manager.py` before this is reached). -/
def Catalog.getAllProps (c : Catalog) (oid : Nat) : List (String × String) :=
  match c.entries.find? (fun e => e.1 = oid) with
  | some e => e.2
  | none => []

/-- Modelled from the spec: `init_properties` - create an entry with empty
properties. -/
def Catalog.initProps (c : Catalog) (oid : Nat) : Catalog :=
  ⟨c.entries ++ [(oid, [])]⟩

/-- Set a key in a property mapping, overwriting an existing binding. -/
def setKV : List (String × String) → String → String → List (String × String)
  | [], k, v => [(k, v)]
  | (k0, v0) :: rest, k, v =>
    if k0 = k then (k, v) :: rest else (k0, v0) :: setKV rest k v

/-- Modelled from the spec: the store side of `set_property` - set one
property of an existing entry. -/
def Catalog.setProp (c : Catalog) (oid : Nat) (k v : String) : Catalog :=
  ⟨c.entries.map (fun e => if e.1 = oid then (e.1, setKV e.2 k v) else e)⟩

/-- `set_properties(df, prop_dict, replace)` of `catalog_manager.py`: if the
frame already has an entry and `replace` is false, warn and return `False`;
otherwise create the entry if absent, set every property, return `True`. -/
def setProperties (c : Catalog) (oid : Nat) (props : List (String × String))
    (replace : Bool) : PyResult (Catalog × Bool) :=
  if c.isPresent oid ∧ replace = false then .ok (c, false)
  else
    let c1 := if c.isPresent oid then c else c.initProps oid
    .ok (props.foldl (fun cc kv => cc.setProp oid kv.1 kv.2) c1, true)

/-- `copy_properties(src, tar, update=True)` of `catalog_manager.py`: raises
a not-found `KeyError` when the source frame has no catalog entry, else
copies all of its properties to the target via `set_properties`. -/
def copyProperties (c : Catalog) (srcOid tarOid : Nat) : PyResult (Catalog × Bool) :=
  if c.isPresent srcOid = false then
    .exn "KeyError: Dataframe information (src) is not present in the catalog"
  else setProperties c tarOid (c.getAllProps srcOid) true

/-! ### The orchestrator `down_sample(table_a, table_b, size, y_param)` -/

/-- The B-sample position list computed at the `np.random.choice` call of
`down_sample`: the first `min(size, len(table_b))` entries of the realized
draw order. -/
def bPositions (size : Int) (lenB : Nat) (perm : List Nat) : List Nat :=
  perm.take (min size (lenB : Int)).toNat

/-- `down_sample(table_a, table_b, size, y_param)`.

`aOid`/`bOid` are the identities (`id(...)`) of the two input frames in the
catalog, `o1`/`o2` those of the freshly materialized output frames, `sw` the
content of the loaded stop-word resource, `perm` the realized draw order of
`np.random.choice`, and `streams i` the realized draw streams of the two
rejection loops for the i-th probed row.

The stages are, in source order: the four validation checks; the
`len(table_b) < size` warning; `_inv_index(table_a)`; the B-sample draw;
`table_b.ix[b_tbl_indices]` fed to `_probe_index`; the two `iloc`
materializations; and the two `copy_properties` catalog updates.  Returns
the pair of sampled frames, whether the warning was emitted, and the
updated catalog. -/
def downSample (cat : Catalog) (aObj bObj : PyObj) (aOid bOid : Nat) (size yParam : Int)
    (sw : List String) (perm : List Nat) (streams : Nat → List Nat × List Nat)
    (o1 o2 : Nat) : PyResult (DataFrame × DataFrame × Bool × Catalog) :=
  match aObj with
  | .notDf => .exn "Input table A is not of type pandas DataFrame"
  | .df tableA =>
    match bObj with
    | .notDf => .exn "Input table B is not of type pandas DataFrame"
    | .df tableB =>
      if tableA.rows.length = 0 ∨ tableB.rows.length = 0 then
        .exn "Size of the input table is 0"
      else if size = 0 ∨ yParam = 0 then
        .exn "size or y_param cannot be zero (3rd and 4th parameter of downsample)"
      else
        let warned : Bool := decide ((tableB.rows.length : Int) < size)
        (invIndexE sw tableA).bind fun sInvIndex =>
          (npRandomChoice tableB.rows.length (min size (tableB.rows.length : Int))
              perm).bind fun bTblIndices =>
            (ixSelect tableB (bTblIndices.map Int.ofNat)).bind fun probeFrame =>
              (probeIndexE sw probeFrame yParam tableA.rows.length sInvIndex
                  streams).bind fun sTblIndices =>
                (ilocSelect tableA sTblIndices).bind fun lSampled =>
                  (ilocSelect tableB bTblIndices).bind fun rSampled =>
                    (copyProperties cat aOid o1).bind fun r1 =>
                      (copyProperties r1.1 bOid o2).bind fun r2 =>
                        .ok (lSampled, rSampled, warned, r2.1)

/-- The probe frame of `down_sample` (lines 198-202 in isolation): the
`table_b.ix[b_tbl_indices]` selection fed to `_probe_index`. -/
def downSampleProbeFrame (tableB : DataFrame) (size : Int) (perm : List Nat) :
    PyResult DataFrame :=
  (npRandomChoice tableB.rows.length (min size (tableB.rows.length : Int)) perm).bind
    fun bTblIndices => ixSelect tableB (bTblIndices.map Int.ofNat)

/-- The materialized B-sample of `down_sample` (lines 198-206 in isolation):
the `table_b.iloc[b_tbl_indices]` selection returned as B-prime. -/
def downSampleBPrime (tableB : DataFrame) (size : Int) (perm : List Nat) :
    PyResult DataFrame :=
  (npRandomChoice tableB.rows.length (min size (tableB.rows.length : Int)) perm).bind
    fun bTblIndices => ilocSelect tableB bTblIndices

/-- Down-sampling seen as a transformation of the surrounding state: the
two source frames and the catalog.  The only state component `down_sample`
writes is the catalog (via `copy_properties`); the frames pass through the
read-only operations above. -/
structure World where
  tableA : DataFrame
  tableB : DataFrame
  cat : Catalog
deriving DecidableEq, Repr

/-- `down_sample` run on a world: returns the updated world together with
the two materialized output frames. -/
def downSampleW (w : World) (aOid bOid : Nat) (size yParam : Int) (sw : List String)
    (perm : List Nat) (streams : Nat → List Nat × List Nat) (o1 o2 : Nat) :
    PyResult (World × DataFrame × DataFrame) :=
  match downSample w.cat (.df w.tableA) (.df w.tableB) aOid bOid size yParam sw perm
      streams o1 o2 with
  | .ok (a1, b1, _, cat2) => .ok (⟨w.tableA, w.tableB, cat2⟩, a1, b1)
  | .exn m => .exn m
  | .hang => .hang

/-! ### Lemmas about the set embedding -/

theorem mem_pyInsert {α : Type} [DecidableEq α] {l : List α} {x y : α} :
    y ∈ pyInsert l x ↔ y ∈ l ∨ y = x := by
  unfold pyInsert
  split
  · rename_i h
    constructor
    · exact Or.inl
    · rintro (hy | rfl) <;> [exact hy; exact h]
  · simp [or_comm]

theorem nodup_pyInsert {α : Type} [DecidableEq α] {l : List α} (h : l.Nodup) (x : α) :
    (pyInsert l x).Nodup := by
  unfold pyInsert
  split
  · exact h
  · rename_i hx
    simpa [List.nodup_append, h] using hx

theorem pyInsert_eq_append {α : Type} [DecidableEq α] (l : List α) (x : α) :
    pyInsert l x = l ∨ (pyInsert l x = l ++ [x] ∧ x ∉ l) := by
  unfold pyInsert
  split <;> simp_all

theorem length_pyInsert_le {α : Type} [DecidableEq α] (l : List α) (x : α) :
    (pyInsert l x).length ≤ l.length + 1 := by
  rcases pyInsert_eq_append l x with h | ⟨h, _⟩ <;> simp [h]

theorem le_length_pyInsert {α : Type} [DecidableEq α] (l : List α) (x : α) :
    l.length ≤ (pyInsert l x).length := by
  rcases pyInsert_eq_append l x with h | ⟨h, _⟩ <;> simp [h]

theorem mem_listUnion {l xs : List Nat} {y : Nat} :
    y ∈ listUnion l xs ↔ y ∈ l ∨ y ∈ xs := by
  induction xs generalizing l with
  | nil => simp [listUnion]
  | cons x rest ih =>
    show y ∈ listUnion (pyInsert l x) rest ↔ _
    rw [ih, mem_pyInsert]
    simp [or_assoc, or_comm, or_left_comm]

theorem nodup_listUnion {l xs : List Nat} (h : l.Nodup) : (listUnion l xs).Nodup := by
  induction xs generalizing l with
  | nil => exact h
  | cons x rest ih => exact ih (nodup_pyInsert h x)

theorem listUnion_eq_self {l xs : List Nat} (h : ∀ x ∈ xs, x ∈ l) :
    listUnion l xs = l := by
  induction xs generalizing l with
  | nil => rfl
  | cons x rest ih =>
    show listUnion (pyInsert l x) rest = l
    have hx : pyInsert l x = l := by unfold pyInsert; simp [h x (by simp)]
    rw [hx]
    exact ih fun z hz => h z (by simp [hz])

theorem listUnion_exists_append (l xs : List Nat) :
    ∃ t, listUnion l xs = l ++ t ∧ ∀ x ∈ t, x ∈ xs := by
  induction xs generalizing l with
  | nil => exact ⟨[], by simp [listUnion], by simp⟩
  | cons x rest ih =>
    obtain ⟨t, ht, hmem⟩ := ih (l := pyInsert l x)
    rcases pyInsert_eq_append l x with hi | ⟨hi, _⟩
    · exact ⟨t, by simpa [listUnion, hi] using ht, fun z hz => by simp [hmem z hz]⟩
    · refine ⟨x :: t, ?_, ?_⟩
      · show listUnion (pyInsert l x) rest = _
        rw [ht, hi, List.append_assoc]
        rfl
      · intro z hz
        rcases List.mem_cons.mp hz with rfl | hz
        · simp
        · simp [hmem z hz]

theorem nodup_strDedup (l : List String) : (strDedup l).Nodup := by
  have h : ∀ (acc : List String), acc.Nodup → (l.foldl pyInsert acc).Nodup := by
    induction l with
    | nil => exact fun _ h => h
    | cons x rest ih => exact fun acc hacc => ih _ (nodup_pyInsert hacc x)
  exact h [] List.nodup_nil

theorem nodup_tokenizeRow (sw : List String) (cols : List Nat) (row : Row) :
    (tokenizeRow sw cols row).Nodup :=
  List.Nodup.filter _ (nodup_strDedup _)

theorem stopword_not_mem_tokenizeRow {sw : List String} {t : String} (h : t ∈ sw)
    (cols : List Nat) (row : Row) : t ∉ tokenizeRow sw cols row := by
  intro hmem
  rcases List.mem_filter.mp hmem with ⟨-, hdec⟩
  simp only [decide_eq_true_eq] at hdec
  exact hdec h

/-! ### Lemmas about the association-list dict and the inverted index -/

theorem dictFind_dictAppend (inv : List (String × List Nat)) (tok : String) (pos : Nat)
    (t : String) :
    dictFind (dictAppend inv tok pos) t =
      if t = tok then
        match dictFind inv tok with
        | some l => some (l ++ [pos])
        | none => some [pos]
      else dictFind inv t := by
  induction inv with
  | nil =>
    by_cases h : t = tok
    · subst h
      simp [dictAppend, dictFind]
    · have h' : ¬tok = t := fun hc => h hc.symm
      simp [dictAppend, dictFind, h, h']
  | cons e rest ih =>
    obtain ⟨t0, l0⟩ := e
    by_cases h0 : t0 = tok
    · subst h0
      by_cases h : t = t0
      · subst h
        simp [dictAppend, dictFind]
      · have h' : ¬t0 = t := fun hc => h hc.symm
        simp [dictAppend, dictFind, h, h']
    · by_cases h : t0 = t
      · have hneq : ¬t = tok := by
          intro hc
          exact h0 (h.trans hc)
        simp [dictAppend, dictFind, h0, h, hneq]
      · simp [dictAppend, dictFind, h0, h, ih]

/-- Invariant carried by one row scan of `_inv_index`: every posting list is
duplicate-free with entries at most `pos`, and `pos` itself occurs only in
the lists of tokens already processed (those no longer in `tks`). -/
def RowScanInv (pos : Nat) (tks : List String) (inv : List (String × List Nat)) : Prop :=
  ∀ t l, dictFind inv t = some l →
    l.Nodup ∧ (∀ p ∈ l, p ≤ pos) ∧ (pos ∈ l → t ∉ tks)

theorem rowScan_preserves (pos : Nat) :
    ∀ (tks : List String) (inv : List (String × List Nat)), tks.Nodup →
      RowScanInv pos tks inv →
      RowScanInv pos [] (tks.foldl (fun acc tok => dictAppend acc tok pos) inv) := by
  intro tks
  induction tks with
  | nil => exact fun inv _ h => h
  | cons tok rest ih =>
    intro inv hnd hinv
    have hnd' : rest.Nodup := hnd.of_cons
    have htok : tok ∉ rest := by
      intro hc
      exact (List.nodup_cons.mp hnd).1 hc
    refine ih _ hnd' ?_
    intro t l hfind
    rw [dictFind_dictAppend] at hfind
    by_cases ht : t = tok
    · subst ht
      simp only [if_pos rfl] at hfind
      cases hold : dictFind inv t with
      | some l0 =>
        rw [hold] at hfind
        obtain ⟨h1, h2, h3⟩ := hinv t l0 hold
        have hposn : pos ∉ l0 := fun hp => (h3 hp) (by simp)
        cases hfind
        refine ⟨by simp [List.nodup_append, h1, hposn], ?_, fun _ => htok⟩
        intro p hp
        rcases List.mem_append.mp hp with hp | hp
        · exact h2 p hp
        · simp at hp; omega
      | none =>
        rw [hold] at hfind
        cases hfind
        exact ⟨List.nodup_singleton pos, by simp, fun _ => htok⟩
    · rw [if_neg ht] at hfind
      obtain ⟨h1, h2, h3⟩ := hinv t l hfind
      exact ⟨h1, h2, fun hp => fun hc => h3 hp (by simp [hc])⟩

/-- After the full scan of `_inv_index` starting at `pos`, every posting
list is duplicate-free with entries below `pos + (number of rows)`. -/
theorem indexRows_wf (sw : List String) (cols : List Nat) :
    ∀ (rows : List Row) (pos : Nat) (inv : List (String × List Nat)),
      (∀ t l, dictFind inv t = some l → l.Nodup ∧ ∀ p ∈ l, p < pos) →
      ∀ t l, dictFind (indexRows sw cols rows pos inv) t = some l →
        l.Nodup ∧ ∀ p ∈ l, p < pos + rows.length := by
  intro rows
  induction rows with
  | nil =>
    intro pos inv hinv t l hfind
    obtain ⟨h1, h2⟩ := hinv t l hfind
    exact ⟨h1, fun p hp => by have := h2 p hp; omega⟩
  | cons row rest ih =>
    intro pos inv hinv t l hfind
    have hscan := rowScan_preserves pos (tokenizeRow sw cols row) inv
      (nodup_tokenizeRow sw cols row)
      (fun t l hf => by
        obtain ⟨h1, h2⟩ := hinv t l hf
        exact ⟨h1, fun p hp => Nat.le_of_lt (h2 p hp), fun hp => absurd (h2 pos hp) (by omega)⟩)
    have hstep : ∀ t l,
        dictFind ((tokenizeRow sw cols row).foldl (fun acc tok => dictAppend acc tok pos) inv)
          t = some l → l.Nodup ∧ ∀ p ∈ l, p < pos + 1 := by
      intro t l hf
      obtain ⟨h1, h2, -⟩ := hscan t l hf
      exact ⟨h1, fun p hp => by have := h2 p hp; omega⟩
    have := ih (pos + 1) _ hstep t l (by simpa [indexRows] using hfind)
    obtain ⟨h1, h2⟩ := this
    exact ⟨h1, fun p hp => by have := h2 p hp; simp [List.length_cons]; omega⟩

/-- Keys of the index are never stop words: the scan only creates entries
for tokens surviving the stop-word difference. -/
theorem indexRows_keys_not_stopword (sw : List String) (cols : List Nat) :
    ∀ (rows : List Row) (pos : Nat) (inv : List (String × List Nat)),
      (∀ t, t ∈ sw → dictFind inv t = none) →
      ∀ t, t ∈ sw → dictFind (indexRows sw cols rows pos inv) t = none := by
  intro rows
  induction rows with
  | nil => exact fun pos inv hinv => hinv
  | cons row rest ih =>
    intro pos inv hinv
    refine ih (pos + 1) _ ?_
    have hfold : ∀ (tks : List String) (acc : List (String × List Nat)),
        (∀ tok ∈ tks, tok ∉ sw) → (∀ t, t ∈ sw → dictFind acc t = none) →
        ∀ t, t ∈ sw → dictFind (tks.foldl (fun a tok => dictAppend a tok pos) acc) t = none := by
      intro tks
      induction tks with
      | nil => exact fun acc _ hacc => hacc
      | cons tok rest2 ih2 =>
        intro acc htks hacc
        refine ih2 _ (fun z hz => htks z (by simp [hz])) ?_
        intro t ht
        rw [dictFind_dictAppend]
        have : ¬t = tok := by
          intro hc
          exact htks tok (by simp) (hc ▸ ht)
        rw [if_neg this]
        exact hacc t ht
    exact hfold (tokenizeRow sw cols row) inv
      (fun tok htok => fun hc => stopword_not_mem_tokenizeRow hc cols row htok) hinv

/-! ### Lemmas about the candidate pool -/

theorem mem_candsOf {inv : List (String × List Nat)} {toks : List String} {x : Nat} :
    x ∈ candsOf inv toks ↔ ∃ tok ∈ toks, ∃ l, dictFind inv tok = some l ∧ x ∈ l := by
  have key : ∀ (ts : List String) (m : List Nat),
      x ∈ ts.foldl (fun m tok =>
          match dictFind inv tok with
          | some ids => listUnion m ids
          | none => m) m ↔
        x ∈ m ∨ ∃ tok ∈ ts, ∃ l, dictFind inv tok = some l ∧ x ∈ l := by
    intro ts
    induction ts with
    | nil => simp
    | cons tok rest ih =>
      intro m
      cases hf : dictFind inv tok with
      | some ids =>
        simp only [List.foldl_cons, hf, ih, mem_listUnion]
        constructor
        · rintro ((hm | hid) | hrest)
          · exact Or.inl hm
          · exact Or.inr ⟨tok, by simp, ids, hf, hid⟩
          · obtain ⟨z, hz, l, hl, hx⟩ := hrest
            exact Or.inr ⟨z, by simp [hz], l, hl, hx⟩
        · rintro (hm | ⟨z, hz, l, hl, hx⟩)
          · exact Or.inl (Or.inl hm)
          · rcases List.mem_cons.mp hz with rfl | hz
            · rw [hf] at hl
              cases hl
              exact Or.inl (Or.inr hx)
            · exact Or.inr ⟨z, hz, l, hl, hx⟩
      | none =>
        simp only [List.foldl_cons, hf, ih]
        constructor
        · rintro (hm | ⟨z, hz, l, hl, hx⟩)
          · exact Or.inl hm
          · exact Or.inr ⟨z, by simp [hz], l, hl, hx⟩
        · rintro (hm | ⟨z, hz, l, hl, hx⟩)
          · exact Or.inl hm
          · rcases List.mem_cons.mp hz with rfl | hz
            · rw [hf] at hl; cases hl
            · exact Or.inr ⟨z, hz, l, hl, hx⟩
  simpa [candsOf] using key toks []

theorem nodup_candsOf (inv : List (String × List Nat)) (toks : List String) :
    (candsOf inv toks).Nodup := by
  have key : ∀ (ts : List String) (m : List Nat), m.Nodup →
      (ts.foldl (fun m tok =>
          match dictFind inv tok with
          | some ids => listUnion m ids
          | none => m) m).Nodup := by
    intro ts
    induction ts with
    | nil => exact fun m h => h
    | cons tok rest ih =>
      intro m hm
      cases hf : dictFind inv tok with
      | some ids => simpa [hf] using ih _ (nodup_listUnion hm)
      | none => simpa [hf] using ih _ hm
  exact key toks [] List.nodup_nil

/-! ### Lemmas about the rejection-sampling loops -/

theorem drawMatchLoop_ok {pool : List Nat} {k : Int} :
    ∀ {ds s s1 : List Nat}, drawMatchLoop pool k s ds = some s1 → s.Nodup →
      k ≤ (pool.length : Int) →
      s1.Nodup ∧ (∃ t, s1 = s ++ t ∧ ∀ x ∈ t, x ∈ pool) ∧
        ((s.length : Int) ≤ k → (s1.length : Int) = k) := by
  intro ds
  induction ds with
  | nil =>
    intro s s1 h hnd hk
    unfold drawMatchLoop at h
    split at h
    · cases h
    · cases h
      exact ⟨hnd, ⟨[], by simp, by simp⟩, fun hle => by omega⟩
  | cons i rest ih =>
    intro s s1 h hnd hk
    unfold drawMatchLoop at h
    split at h
    · rename_i hguard
      have hpool : 0 < pool.length := by
        by_contra hc
        simp only [Nat.not_lt, Nat.le_zero] at hc
        rw [hc] at hk
        omega
      have helem : pool.getD (i % pool.length) 0 ∈ pool := by
        have hlt : i % pool.length < pool.length := Nat.mod_lt _ hpool
        rw [List.getD_eq_getElem _ _ hlt]
        exact List.getElem_mem hlt
      obtain ⟨h1, ⟨t, ht, htmem⟩, h3⟩ := ih h (nodup_pyInsert hnd _) hk
      refine ⟨h1, ?_, ?_⟩
      · rcases pyInsert_eq_append s (pool.getD (i % pool.length) 0) with hi | ⟨hi, _⟩
        · exact ⟨t, by rwa [hi] at ht, htmem⟩
        · refine ⟨pool.getD (i % pool.length) 0 :: t, ?_, ?_⟩
          · rw [ht, hi, List.append_assoc]
            rfl
          · intro x hx
            rcases List.mem_cons.mp hx with rfl | hx
            · exact helem
            · exact htmem x hx
      · intro _
        refine h3 ?_
        have hle1 : (pyInsert s (pool.getD (i % pool.length) 0)).length ≤ s.length + 1 :=
          length_pyInsert_le _ _
        omega
    · cases h
      exact ⟨hnd, ⟨[], by simp, by simp⟩, fun hle => by omega⟩

theorem drawFillLoop_ok {univ : Nat} {total : Int} :
    ∀ {ds s s1 : List Nat}, drawFillLoop univ total s ds = .ok s1 → s.Nodup →
      s1.Nodup ∧ (∃ t, s1 = s ++ t ∧ ∀ x ∈ t, x < univ) ∧
        ((s.length : Int) ≤ total → (s1.length : Int) = total) := by
  intro ds
  induction ds with
  | nil =>
    intro s s1 h hnd
    unfold drawFillLoop at h
    split at h
    · cases h
    · cases h
      exact ⟨hnd, ⟨[], by simp, by simp⟩, fun hle => by omega⟩
  | cons r rest ih =>
    intro s s1 h hnd
    unfold drawFillLoop at h
    split at h
    · rename_i hguard
      split at h
      · cases h
      · rename_i hu
        have hu' : 0 < univ := Nat.pos_of_ne_zero hu
        have helem : r % univ < univ := Nat.mod_lt _ hu'
        obtain ⟨h1, ⟨t, ht, htmem⟩, h3⟩ := ih h (nodup_pyInsert hnd _)
        refine ⟨h1, ?_, ?_⟩
        · rcases pyInsert_eq_append s (r % univ) with hi | ⟨hi, _⟩
          · exact ⟨t, by rwa [hi] at ht, htmem⟩
          · refine ⟨r % univ :: t, ?_, ?_⟩
            · rw [ht, hi, List.append_assoc]
              rfl
            · intro x hx
              rcases List.mem_cons.mp hx with rfl | hx
              · exact helem
              · exact htmem x hx
        · intro _
          refine h3 ?_
          have hle1 : (pyInsert s (r % univ)).length ≤ s.length + 1 := length_pyInsert_le _ _
          omega
    · cases h
      exact ⟨hnd, ⟨[], by simp, by simp⟩, fun hle => by omega⟩

/-- Termination of the match-draw loop: a realized stream that enumerates
every pool position makes the loop reach its target, because the guard
`k = min(y_pos, len(match))` never asks for more distinct values than the
pool holds. -/
theorem drawMatchLoop_terminating {pool : List Nat} {k : Int}
    (hpnd : pool.Nodup) (hk : k ≤ (pool.length : Int)) :
    ∀ (ds : List Nat), (∀ j ∈ ds, j < pool.length) →
      ∀ (s : List Nat), s.Nodup →
        (∀ j, j < pool.length → j ∉ ds → pool.getD j 0 ∈ s) →
        ∃ s1, drawMatchLoop pool k s ds = some s1 := by
  intro ds
  induction ds with
  | nil =>
    intro _ s hnd hcover
    have hsub : pool ⊆ s := by
      intro x hx
      obtain ⟨j, hj, hget⟩ := List.getElem_of_mem hx
      have := hcover j hj (by simp)
      rwa [List.getD_eq_getElem _ _ hj, hget] at this
    have hlen : pool.length ≤ s.length := by
      have h1 : pool.toFinset ⊆ s.toFinset := fun x hx =>
        List.mem_toFinset.mpr (hsub (List.mem_toFinset.mp hx))
      have h2 := Finset.card_le_card h1
      rw [List.toFinset_card_of_nodup hpnd] at h2
      exact h2.trans (s.toFinset_card_le)
    refine ⟨s, ?_⟩
    unfold drawMatchLoop
    rw [if_neg (by omega)]
  | cons j rest ih =>
    intro hdom s hnd hcover
    by_cases hguard : (s.length : Int) < k
    · have hj : j < pool.length := hdom j (by simp)
      have hstep : pyInsert s (pool.getD (j % pool.length) 0) =
          pyInsert s (pool.getD j 0) := by
        rw [Nat.mod_eq_of_lt hj]
      obtain ⟨s1, hs1⟩ := ih (fun z hz => hdom z (by simp [hz]))
        (s := pyInsert s (pool.getD j 0)) (nodup_pyInsert hnd _)
        (by
          intro j' hj' hj'rest
          by_cases hjj : j' = j
          · subst hjj
            exact mem_pyInsert.mpr (Or.inr rfl)
          · have : j' ∉ j :: rest := by simp [hjj, hj'rest]
            exact mem_pyInsert.mpr (Or.inl (hcover j' hj' this)))
      refine ⟨s1, ?_⟩
      unfold drawMatchLoop
      rw [if_pos hguard, hstep]
      exact hs1
    · refine ⟨s, ?_⟩
      unfold drawMatchLoop
      rw [if_neg hguard]

/-- Termination of the random-fill loop under the documented precondition
`total_budget <= universe_size`: the stream `0, 1, ..., universe_size - 1`
reaches the target. -/
theorem drawFillLoop_terminating (univ : Nat) {total : Int}
    (hu : 0 < univ) (ht : total ≤ (univ : Int)) :
    ∀ (ds : List Nat), (∀ r ∈ ds, r < univ) →
      ∀ (s : List Nat), s.Nodup →
        (∀ x, x < univ → x ∉ ds → x ∈ s) →
        ∃ s1, drawFillLoop univ total s ds = .ok s1 := by
  intro ds
  induction ds with
  | nil =>
    intro _ s hnd hcover
    have hsub : ∀ x, x < univ → x ∈ s := fun x hx => hcover x hx (by simp)
    have hlen : univ ≤ s.length := by
      have h1 : Finset.range univ ⊆ s.toFinset := by
        intro x hx
        exact List.mem_toFinset.mpr (hsub x (Finset.mem_range.mp hx))
      have h2 := Finset.card_le_card h1
      rw [Finset.card_range] at h2
      exact h2.trans (s.toFinset_card_le)
    refine ⟨s, ?_⟩
    unfold drawFillLoop
    rw [if_neg (by omega)]
  | cons r rest ih =>
    intro hdom s hnd hcover
    by_cases hguard : (s.length : Int) < total
    · have hr : r < univ := hdom r (by simp)
      have hstep : r % univ = r := Nat.mod_eq_of_lt hr
      obtain ⟨s1, hs1⟩ := ih (fun z hz => hdom z (by simp [hz]))
        (s := pyInsert s r) (nodup_pyInsert hnd _)
        (by
          intro x hx hxrest
          by_cases hxr : x = r
          · subst hxr
            exact mem_pyInsert.mpr (Or.inr rfl)
          · have : x ∉ r :: rest := by simp [hxr, hxrest]
            exact mem_pyInsert.mpr (Or.inl (hcover x hx this)))
      refine ⟨s1, ?_⟩
      unfold drawFillLoop
      rw [if_pos hguard, if_neg (by omega), hstep]
      exact hs1
    · refine ⟨s, ?_⟩
      unfold drawFillLoop
      rw [if_neg hguard]

/-! ### Lemmas about the per-row probe -/

theorem probeRowTokens_ok_inv {inv : List (String × List Nat)} {y : Int} {univ : Nat}
    {toks : List String} {ds1 ds2 s : List Nat}
    (h : probeRowTokens inv y univ toks ds1 ds2 = .ok s) :
    ∃ s1, drawMatchLoop (candsOf inv toks)
        (min (Int.fdiv y 2) ((candsOf inv toks).length : Int)) [] ds1 = some s1 ∧
      drawFillLoop univ y s1 ds2 = .ok s := by
  simp only [probeRowTokens] at h
  cases hm : drawMatchLoop (candsOf inv toks)
      (min (Int.fdiv y 2) ((candsOf inv toks).length : Int)) [] ds1 with
  | none => rw [hm] at h; cases h
  | some s1 => rw [hm] at h; exact ⟨s1, rfl, h⟩

/-- Every position returned by a per-row probe is below the row count of the
indexed table, provided the index posting lists are. -/
theorem probeRowTokens_mem_bound {inv : List (String × List Nat)} {y : Int} {univ : Nat}
    {toks : List String} {ds1 ds2 s : List Nat}
    (h : probeRowTokens inv y univ toks ds1 ds2 = .ok s)
    (hbound : ∀ t l, dictFind inv t = some l → ∀ p ∈ l, p < univ) :
    ∀ x ∈ s, x < univ := by
  obtain ⟨s1, hm, hf⟩ := probeRowTokens_ok_inv h
  have hk : min (Int.fdiv y 2) ((candsOf inv toks).length : Int) ≤
      ((candsOf inv toks).length : Int) := min_le_right _ _
  obtain ⟨hs1nd, ⟨t1, ht1, ht1mem⟩, -⟩ := drawMatchLoop_ok hm List.nodup_nil hk
  obtain ⟨-, ⟨t2, ht2, ht2mem⟩, -⟩ := drawFillLoop_ok hf hs1nd
  intro x hx
  rw [ht2, ht1] at hx
  simp only [List.nil_append, List.mem_append] at hx
  rcases hx with hx | hx
  · obtain ⟨tok, -, l, hl, hxl⟩ := mem_candsOf.mp (ht1mem x hx)
    exact hbound tok l hl x hxl
  · exact ht2mem x hx

theorem probeRow_ok_mem_bound {sw : List String} {cols : List Nat}
    {inv : List (String × List Nat)} {y : Int} {univ : Nat} {row : Row}
    {ds1 ds2 s : List Nat}
    (h : probeRow sw cols inv y univ row ds1 ds2 = .ok s)
    (hbound : ∀ t l, dictFind inv t = some l → ∀ p ∈ l, p < univ) :
    ∀ x ∈ s, x < univ :=
  probeRowTokens_mem_bound h hbound

/-- Inversion bound for the row loop: an accumulator that came out of
`probeRows` only holds positions below the indexed row count. -/
theorem probeRows_ok_bound {sw : List String} {cols : List Nat}
    {inv : List (String × List Nat)} {y : Int} {univ : Nat}
    {streams : Nat → List Nat × List Nat}
    (hbound : ∀ t l, dictFind inv t = some l → ∀ p ∈ l, p < univ) :
    ∀ (rows : List Row) (i : Nat) (acc h1 : List Nat),
      probeRows sw cols inv y univ streams rows i acc = .ok h1 →
      (∀ x ∈ acc, x < univ) → ∀ x ∈ h1, x < univ := by
  intro rows
  induction rows with
  | nil =>
    intro i acc h1 h hacc
    cases h
    exact hacc
  | cons row rest ih =>
    intro i acc h1 h hacc
    rw [probeRows, PyResult.bind_eq_ok] at h
    obtain ⟨smpl, hsmpl, hrest⟩ := h
    refine ih (i + 1) _ h1 hrest ?_
    intro x hx
    rcases mem_listUnion.mp hx with hx | hx
    · exact hacc x hx
    · exact probeRow_ok_mem_bound hsmpl hbound x hx

/-- Nodup for the row-loop accumulator. -/
theorem probeRows_ok_nodup {sw : List String} {cols : List Nat}
    {inv : List (String × List Nat)} {y : Int} {univ : Nat}
    {streams : Nat → List Nat × List Nat} :
    ∀ (rows : List Row) (i : Nat) (acc h1 : List Nat),
      probeRows sw cols inv y univ streams rows i acc = .ok h1 →
      acc.Nodup → h1.Nodup := by
  intro rows
  induction rows with
  | nil =>
    intro i acc h1 h hacc
    cases h
    exact hacc
  | cons row rest ih =>
    intro i acc h1 h hacc
    rw [probeRows, PyResult.bind_eq_ok] at h
    obtain ⟨smpl, -, hrest⟩ := h
    exact ih (i + 1) _ h1 hrest (nodup_listUnion hacc)

/-- Existence version: if every realized per-row probe returns, the row loop
returns. -/
theorem probeRows_exists (sw : List String) (cols : List Nat)
    (inv : List (String × List Nat)) (y : Int) (univ : Nat)
    (streams : Nat → List Nat × List Nat) :
    ∀ (rows : List Row) (i : Nat) (acc : List Nat),
      (∀ j, j < rows.length →
        (probeRow sw cols inv y univ (rows.getD j [])
            (streams (i + j)).1 (streams (i + j)).2).isOk = true) →
      ∃ h1, probeRows sw cols inv y univ streams rows i acc = .ok h1 := by
  intro rows
  induction rows with
  | nil => exact fun i acc _ => ⟨acc, rfl⟩
  | cons row rest ih =>
    intro i acc hok
    have h0 := hok 0 (by simp)
    rw [PyResult.isOk_iff] at h0
    obtain ⟨smpl, hsmpl⟩ := h0
    simp only [Nat.add_zero, List.getD_cons_zero] at hsmpl
    obtain ⟨h1, hh1⟩ := ih (i + 1) (listUnion acc smpl) (by
      intro j hj
      have := hok (j + 1) (by simpa using Nat.succ_lt_succ hj)
      have harith : i + (j + 1) = i + 1 + j := by omega
      simpa [harith] using this)
    refine ⟨h1, ?_⟩
    rw [probeRows, hsmpl, PyResult.bind_ok]
    exact hh1

/-! ### Lemmas about the embedded pandas and numpy operations -/

theorem findPos_range' :
    ∀ (n k i : Nat), i < n →
      findPos ((List.range' k n).map Int.ofNat) (Int.ofNat (k + i)) = some i := by
  intro n
  induction n with
  | zero => omega
  | succ m ih =>
    intro k i hi
    rw [List.range'_succ]
    cases i with
    | zero => simp [findPos]
    | succ j =>
      have harith : k + (j + 1) = (k + 1) + j := by omega
      rw [harith]
      simp only [List.map_cons, findPos]
      have hne : ¬(Int.ofNat k = Int.ofNat (k + 1 + j)) := by
        intro hc
        have := Int.ofNat.inj hc
        omega
      rw [if_neg hne, ih (k + 1) j (by omega)]
      rfl

theorem findPos_defaultLabels {n i : Nat} (hi : i < n) :
    findPos (defaultLabels n) (Int.ofNat i) = some i := by
  have := findPos_range' n 0 i hi
  simpa [defaultLabels, List.range_eq_range'] using this

theorem findAllPos_defaultLabels {n : Nat} :
    ∀ (ps : List Nat), (∀ p ∈ ps, p < n) →
      findAllPos (defaultLabels n) (ps.map Int.ofNat) = some ps := by
  intro ps
  induction ps with
  | nil => intro _; rfl
  | cons p rest ih =>
    intro hps
    have h1 := findPos_defaultLabels (hps p (by simp))
    have h2 := ih (fun z hz => hps z (by simp [hz]))
    simp only [List.map_cons, findAllPos, h1, h2]

theorem ixSelect_defaultLabels {t : DataFrame} (hlab : t.labels = defaultLabels t.rows.length)
    {ps : List Nat} (hps : ∀ p ∈ ps, p < t.rows.length) :
    ixSelect t (ps.map Int.ofNat) =
      .ok ⟨ps.map Int.ofNat, ps.map (fun p => t.rows.getD p []), t.strCols⟩ := by
  unfold ixSelect
  rw [hlab, findAllPos_defaultLabels ps hps]

theorem ilocSelect_ok {t : DataFrame} {ps : List Nat} (hps : ∀ p ∈ ps, p < t.rows.length) :
    ilocSelect t ps = .ok (ilocFrame t ps) := by
  unfold ilocSelect
  rw [if_pos]
  exact List.all_eq_true.mpr fun p hp => decide_eq_true (hps p hp)

theorem ilocSelect_ok_inv {t : DataFrame} {ps : List Nat} {d : DataFrame}
    (h : ilocSelect t ps = .ok d) :
    d = ilocFrame t ps ∧ ∀ p ∈ ps, p < t.rows.length := by
  unfold ilocSelect at h
  split at h
  · rename_i hall
    cases h
    exact ⟨rfl, fun p hp => by simpa using List.all_eq_true.mp hall p hp⟩
  · cases h

theorem npRandomChoice_ok {n : Nat} {m : Int} (h0 : 0 ≤ m) (hn : m ≤ (n : Int))
    (perm : List Nat) : npRandomChoice n m perm = .ok (perm.take m.toNat) := by
  unfold npRandomChoice
  rw [if_neg (by omega), if_neg (by omega)]

/-! ### Lemmas about the catalog -/

theorem isPresent_setProp (c : Catalog) (oid : Nat) (k v : String) (o : Nat) :
    (c.setProp oid k v).isPresent o = c.isPresent o := by
  obtain ⟨es⟩ := c
  induction es with
  | nil => rfl
  | cons e rest ih =>
    simp only [Catalog.setProp, Catalog.isPresent, List.map_cons, List.any_cons] at ih ⊢
    by_cases he : e.1 = oid <;> simp [he, ih]

theorem isPresent_foldSetProps (props : List (String × String)) :
    ∀ (c : Catalog) (oid o : Nat),
      ((props.foldl (fun cc kv => cc.setProp oid kv.1 kv.2) c).isPresent o) =
        c.isPresent o := by
  induction props with
  | nil => intro c oid o; rfl
  | cons kv rest ih =>
    intro c oid o
    rw [List.foldl_cons, ih, isPresent_setProp]

theorem isPresent_initProps (c : Catalog) (oid o : Nat) :
    (c.initProps oid).isPresent o = (c.isPresent o || decide (oid = o)) := by
  obtain ⟨es⟩ := c
  simp [Catalog.initProps, Catalog.isPresent, List.any_append]

theorem setProperties_ok (c : Catalog) (oid : Nat) (props : List (String × String)) :
    ∃ c', setProperties c oid props true = .ok (c', true) ∧
      ∀ o, (c'.isPresent o = true ↔ c.isPresent o = true ∨ o = oid) := by
  unfold setProperties
  rw [if_neg (by simp)]
  refine ⟨_, rfl, ?_⟩
  intro o
  rw [isPresent_foldSetProps]
  by_cases hp : c.isPresent oid
  · rw [if_pos hp]
    constructor
    · exact Or.inl
    · rintro (h | rfl) <;> [exact h; exact hp]
  · rw [if_neg hp, isPresent_initProps]
    constructor
    · intro h
      rcases Bool.or_eq_true_iff.mp h with h | h
      · exact Or.inl h
      · exact Or.inr (by simpa using (decide_eq_true_eq.mp h).symm)
    · rintro (h | rfl)
      · simp [h]
      · simp

theorem copyProperties_ok {c : Catalog} {srcOid : Nat} (h : c.isPresent srcOid = true)
    (tarOid : Nat) :
    ∃ c', copyProperties c srcOid tarOid = .ok (c', true) ∧
      ∀ o, (c'.isPresent o = true ↔ c.isPresent o = true ∨ o = tarOid) := by
  unfold copyProperties
  rw [if_neg (by simp [h])]
  exact setProperties_ok c tarOid (c.getAllProps srcOid)

theorem copyProperties_absent {c : Catalog} {srcOid : Nat} (h : c.isPresent srcOid = false)
    (tarOid : Nat) :
    copyProperties c srcOid tarOid =
      .exn "KeyError: Dataframe information (src) is not present in the catalog" := by
  unfold copyProperties
  rw [if_pos h]

/-! ### Lemmas about the orchestrator -/

theorem invIndexE_ok {sw : List String} {A : DataFrame} (hA : A.rows.length ≠ 0) :
    invIndexE sw A = .ok (indexRows sw A.strCols A.rows 0 []) := by
  unfold invIndexE getStrColsList
  rw [if_neg hA]
  rfl

/-- The posting lists of the index built over `A` only hold positions below
the row count of `A`. -/
theorem invIndex_bound (sw : List String) (A : DataFrame) :
    ∀ t l, dictFind (indexRows sw A.strCols A.rows 0 []) t = some l →
      l.Nodup ∧ ∀ p ∈ l, p < A.rows.length := by
  intro t l hf
  have h0 : ∀ t l, dictFind ([] : List (String × List Nat)) t = some l →
      l.Nodup ∧ ∀ p ∈ l, p < 0 := by
    intro t l hf0
    simp [dictFind] at hf0
  have := indexRows_wf sw A.strCols A.rows 0 [] h0 t l hf
  simpa using this

/-- Full success inversion of `down_sample` on two frame arguments: a
returned pair pins down every intermediate stage. -/
theorem downSample_ok_inv {cat : Catalog} {A B : DataFrame} {aOid bOid : Nat}
    {size y : Int} {sw : List String} {perm : List Nat}
    {streams : Nat → List Nat × List Nat} {o1 o2 : Nat}
    {a1 b1 : DataFrame} {wfl : Bool} {c2 : Catalog}
    (h : downSample cat (.df A) (.df B) aOid bOid size y sw perm streams o1 o2 =
      .ok (a1, b1, wfl, c2)) :
    ∃ inv bIdx pf sIdx r1 r2,
      invIndexE sw A = .ok inv ∧
      npRandomChoice B.rows.length (min size (B.rows.length : Int)) perm = .ok bIdx ∧
      ixSelect B (bIdx.map Int.ofNat) = .ok pf ∧
      probeIndexE sw pf y A.rows.length inv streams = .ok sIdx ∧
      ilocSelect A sIdx = .ok a1 ∧
      ilocSelect B bIdx = .ok b1 ∧
      copyProperties cat aOid o1 = .ok r1 ∧
      copyProperties r1.1 bOid o2 = .ok r2 ∧
      wfl = decide ((B.rows.length : Int) < size) ∧ c2 = r2.1 := by
  simp only [downSample] at h
  by_cases hc1 : A.rows.length = 0 ∨ B.rows.length = 0
  · rw [if_pos hc1] at h
    cases h
  · rw [if_neg hc1] at h
    by_cases hc2 : size = 0 ∨ y = 0
    · rw [if_pos hc2] at h
      cases h
    · rw [if_neg hc2] at h
      simp only [PyResult.bind_eq_ok, PyResult.ok.injEq, Prod.mk.injEq] at h
      obtain ⟨inv, h1, bIdx, h2, pf, h3, sIdx, h4, lS, h5, rS, h6, r1, h7, r2, h8,
        ha, hb, hw, hc⟩ := h
      subst ha hb
      exact ⟨inv, bIdx, pf, sIdx, r1, r2, h1, h2, h3, h4, h5, h6, h7, h8, hw.symm, hc.symm⟩

/-- Forward success run of `down_sample`: on non-empty frames, positive
`size`, non-zero `y_param`, default labels on `table_b`, a realized
without-replacement draw order, catalog entries for both inputs and
realized probe streams that complete every per-row loop, the call returns,
with B-prime the positional selection of the drawn B positions. -/
theorem downSample_success {cat : Catalog} {A B : DataFrame} {aOid bOid : Nat}
    {size y : Int} {sw : List String} {perm : List Nat}
    {streams : Nat → List Nat × List Nat} {o1 o2 : Nat}
    (hA : A.rows.length ≠ 0) (hB : B.rows.length ≠ 0)
    (hsz : 1 ≤ size) (hy : y ≠ 0)
    (hlab : B.labels = defaultLabels B.rows.length)
    (hpermB : ∀ x ∈ perm, x < B.rows.length)
    (hpermL : B.rows.length ≤ perm.length)
    (hcatA : cat.isPresent aOid = true) (hcatB : cat.isPresent bOid = true)
    (hprobe : ∀ j, j < (bPositions size B.rows.length perm).length →
      (probeRow sw B.strCols (indexRows sw A.strCols A.rows 0 []) y A.rows.length
        (B.rows.getD ((bPositions size B.rows.length perm).getD j 0) [])
        (streams j).1 (streams j).2).isOk = true) :
    ∃ sIdx c2,
      (∀ x ∈ sIdx, x < A.rows.length) ∧
      downSample cat (.df A) (.df B) aOid bOid size y sw perm streams o1 o2 =
        .ok (ilocFrame A sIdx, ilocFrame B (bPositions size B.rows.length perm),
          decide ((B.rows.length : Int) < size), c2) := by
  have hbss0 : 0 ≤ min size (B.rows.length : Int) := by
    have : 1 ≤ (B.rows.length : Int) := by
      have := Nat.pos_of_ne_zero hB
      omega
    omega
  have hbssB : min size (B.rows.length : Int) ≤ (B.rows.length : Int) := min_le_right _ _
  have hbIdx_sub : ∀ x ∈ bPositions size B.rows.length perm, x < B.rows.length :=
    fun x hx => hpermB x (List.take_subset _ _ hx)
  have hbIdx_len : (bPositions size B.rows.length perm).length =
      (min size (B.rows.length : Int)).toNat := by
    rw [bPositions, List.length_take]
    have : (min size (B.rows.length : Int)).toNat ≤ B.rows.length := by omega
    omega
  have hbIdx_ne : (bPositions size B.rows.length perm).length ≠ 0 := by
    rw [hbIdx_len]
    have h1 : 1 ≤ (B.rows.length : Int) := by
      have := Nat.pos_of_ne_zero hB
      omega
    omega
  have h1 : invIndexE sw A = .ok (indexRows sw A.strCols A.rows 0 []) := invIndexE_ok hA
  have h2 : npRandomChoice B.rows.length (min size (B.rows.length : Int)) perm =
      .ok (bPositions size B.rows.length perm) :=
    npRandomChoice_ok hbss0 hbssB perm
  have h3 : ixSelect B ((bPositions size B.rows.length perm).map Int.ofNat) =
      .ok ⟨(bPositions size B.rows.length perm).map Int.ofNat,
        (bPositions size B.rows.length perm).map (fun p => B.rows.getD p []),
        B.strCols⟩ :=
    ixSelect_defaultLabels hlab hbIdx_sub
  have hget : ∀ j, j < (bPositions size B.rows.length perm).length →
      ((bPositions size B.rows.length perm).map (fun p => B.rows.getD p [])).getD j [] =
        B.rows.getD ((bPositions size B.rows.length perm).getD j 0) [] := by
    intro j hj
    rw [List.getD_eq_getElem _ _ (by simpa using hj), List.getElem_map,
      List.getD_eq_getElem _ _ hj]
  obtain ⟨sIdx, hsIdx⟩ := probeRows_exists sw B.strCols
    (indexRows sw A.strCols A.rows 0 []) y A.rows.length streams
    ((bPositions size B.rows.length perm).map (fun p => B.rows.getD p [])) 0 []
    (by
      intro j hj
      rw [List.length_map] at hj
      rw [Nat.zero_add, hget j hj]
      exact hprobe j hj)
  have hbound : ∀ x ∈ sIdx, x < A.rows.length :=
    probeRows_ok_bound (fun t l hf => (invIndex_bound sw A t l hf).2) _ 0 [] sIdx hsIdx
      (by simp)
  have h4 : probeIndexE sw
      ⟨(bPositions size B.rows.length perm).map Int.ofNat,
        (bPositions size B.rows.length perm).map (fun p => B.rows.getD p []), B.strCols⟩
      y A.rows.length (indexRows sw A.strCols A.rows 0 []) streams = .ok sIdx := by
    unfold probeIndexE getStrColsList
    rw [if_neg (by simpa using hbIdx_ne)]
    exact hsIdx
  have h5 : ilocSelect A sIdx = .ok (ilocFrame A sIdx) := ilocSelect_ok hbound
  have h6 : ilocSelect B (bPositions size B.rows.length perm) =
      .ok (ilocFrame B (bPositions size B.rows.length perm)) := ilocSelect_ok hbIdx_sub
  obtain ⟨c1, h7, h7iff⟩ := copyProperties_ok hcatA o1
  obtain ⟨c2, h8, -⟩ := copyProperties_ok (c := c1)
    ((h7iff bOid).mpr (Or.inl hcatB)) o2
  refine ⟨sIdx, c2, hbound, ?_⟩
  have hcond1 : ¬(A.rows.length = 0 ∨ B.rows.length = 0) := by
    push_neg
    exact ⟨hA, hB⟩
  have hcond2 : ¬(size = 0 ∨ y = 0) := by
    push_neg
    exact ⟨by omega, hy⟩
  simp only [downSample]
  rw [if_neg hcond1, if_neg hcond2]
  simp only [h1, h2, h3, h4, h5, h6, h7, h8, PyResult.bind_ok]

/-- Presence after a successful property copy: the target entry is created,
everything else is as before. -/
theorem copyProperties_ok_inv {c : Catalog} {srcOid tarOid : Nat} {r : Catalog × Bool}
    (h : copyProperties c srcOid tarOid = .ok r) :
    ∀ o, (r.1.isPresent o = true ↔ c.isPresent o = true ∨ o = tarOid) := by
  unfold copyProperties at h
  split at h
  · cases h
  · obtain ⟨c', hset, hiff⟩ := setProperties_ok c tarOid (c.getAllProps srcOid)
    rw [hset] at h
    cases h
    exact hiff

/-- Selecting the rows at positions of `List.range` in order reproduces the
row list. -/
theorem map_getD_range (l : List Row) :
    (List.range l.length).map (fun p => l.getD p []) = l := by
  induction l with
  | nil => rfl
  | cons a t ih =>
    rw [List.length_cons, List.range_succ_eq_map, List.map_cons]
    simp only [List.getD_cons_zero]
    congr 1
    rw [List.map_map]
    have hfun : ((fun p => (a :: t).getD p []) ∘ Nat.succ) = (fun p => t.getD p []) := by
      funext p
      simp [List.getD_cons_succ]
    rw [hfun, ih]

/-- A duplicate-free list of naturals below `n` of length at least `n` is a
permutation of `List.range n`. -/
theorem perm_range_of_nodup {perm : List Nat} {n : Nat} (hnd : perm.Nodup)
    (hb : ∀ x ∈ perm, x < n) (hl : n ≤ perm.length) :
    perm.Perm (List.range n) := by
  have hsub : perm.toFinset ⊆ Finset.range n := by
    intro x hx
    exact Finset.mem_range.mpr (hb x (List.mem_toFinset.mp hx))
  have hcard : (Finset.range n).card ≤ perm.toFinset.card := by
    rw [Finset.card_range, List.toFinset_card_of_nodup hnd]
    exact hl
  have hfin : perm.toFinset = Finset.range n := Finset.eq_of_subset_of_card_le hsub hcard
  rw [List.perm_ext_iff_of_nodup hnd (List.nodup_range n)]
  intro a
  rw [List.mem_range, ← Finset.mem_range, ← hfin, List.mem_toFinset]

/-! ### Claim theorems -/

/-- C6: every token that is a member of the loaded stop-word set is removed
from the tokenization result before indexing and before probing: no
stop-word token ever appears in the inverted index vocabulary (it has no
posting-list entry) nor in any probe row's token set. -/
theorem claim_C6 {sw : List String} {t : String} (h : t ∈ sw)
    (colsA colsB : List Nat) (rowsA : List Row) (pos : Nat) (row : Row) :
    dictFind (indexRows sw colsA rowsA pos []) t = none ∧
      t ∉ tokenizeRow sw colsB row :=
  ⟨indexRows_keys_not_stopword sw colsA rowsA pos [] (fun _ _ => rfl) t h,
    stopword_not_mem_tokenizeRow h colsB row⟩

theorem claim_C6_witness :
    "the" ∈ ["the", "of"] ∧
      (dictFind (indexRows ["the", "of"] [0] [[Value.vStr "the cat"]] 0 []) "the" = none ∧
        "the" ∉ tokenizeRow ["the", "of"] [0] [Value.vStr "the cat"]) :=
  ⟨by decide, claim_C6 (by decide) [0] [0] [[Value.vStr "the cat"]] 0 [Value.vStr "the cat"]⟩

/-- C9: every row position in any posting list of the index built over
table_a lies in [0, len(table_a)) and occurs at most once per token; every
position in the final accumulator lies in [0, len(table_a)); and the
accumulator has set semantics: unioning the same per-probe local set a
second time leaves it unchanged. -/
theorem claim_C9 {sw : List String} {A : DataFrame} {colsB : List Nat} {y : Int}
    {streams : Nat → List Nat × List Nat} {rowsB : List Row} {i : Nat}
    {hAcc : List Nat}
    (hrun : probeRows sw colsB (indexRows sw A.strCols A.rows 0 []) y A.rows.length
      streams rowsB i [] = .ok hAcc) :
    (∀ t l, dictFind (indexRows sw A.strCols A.rows 0 []) t = some l →
      l.Nodup ∧ ∀ p ∈ l, p < A.rows.length) ∧
    (∀ x ∈ hAcc, x < A.rows.length) ∧
    (∀ h s : List Nat, listUnion (listUnion h s) s = listUnion h s) := by
  refine ⟨invIndex_bound sw A, ?_, ?_⟩
  · exact probeRows_ok_bound (fun t l hf => (invIndex_bound sw A t l hf).2) rowsB i []
      hAcc hrun (by simp)
  · intro h s
    exact listUnion_eq_self fun x hx => mem_listUnion.mpr (Or.inr hx)

theorem claim_C9_witness :
    probeRows [] [0] (indexRows [] [0] [[Value.vStr "x"]] 0 []) 1 1
        (fun _ => (([] : List Nat), ([0] : List Nat))) [[Value.vStr "x"]] 0 [] = .ok [0] ∧
      ((∀ t l, dictFind (indexRows [] [0] [[Value.vStr "x"]] 0 []) t = some l →
          l.Nodup ∧ ∀ p ∈ l, p < 1) ∧
        (∀ x ∈ [0], x < 1) ∧
        (∀ h s : List Nat, listUnion (listUnion h s) s = listUnion h s)) :=
  ⟨by decide, @claim_C9 [] ⟨[0], [[Value.vStr "x"]], [0]⟩ [0] 1
    (fun _ => (([] : List Nat), ([0] : List Nat))) [[Value.vStr "x"]] 0 [0] (by decide)⟩

/-- C4: a completed per-row probe with universe_size at least total_budget
returns exactly total_budget distinct positions: a first block of exactly
min(floor(total_budget / 2), number of match candidates) positions drawn
from the candidate pool, followed by positions drawn from [0,
universe_size); and when the candidates number strictly fewer than
floor(total_budget / 2), the first block is exactly the candidate set. -/
theorem claim_C4 {inv : List (String × List Nat)} {y : Int} {univ : Nat}
    {toks : List String} {ds1 ds2 s : List Nat}
    (hy : 1 ≤ y) (hu : y ≤ (univ : Int))
    (h : probeRowTokens inv y univ toks ds1 ds2 = .ok s) :
    s.Nodup ∧ (s.length : Int) = y ∧
    ∃ s1 t, s = s1 ++ t ∧
      drawMatchLoop (candsOf inv toks)
        (min (Int.fdiv y 2) ((candsOf inv toks).length : Int)) [] ds1 = some s1 ∧
      (s1.length : Int) = min (Int.fdiv y 2) ((candsOf inv toks).length : Int) ∧
      (∀ x ∈ s1, x ∈ candsOf inv toks) ∧
      (∀ x ∈ t, x < univ) ∧
      (t.length : Int) = y - min (Int.fdiv y 2) ((candsOf inv toks).length : Int) ∧
      (((candsOf inv toks).length : Int) < Int.fdiv y 2 →
        ∀ x, (x ∈ s1 ↔ x ∈ candsOf inv toks)) := by
  obtain ⟨s1, hm, hf⟩ := probeRowTokens_ok_inv h
  have hk : min (Int.fdiv y 2) ((candsOf inv toks).length : Int) ≤
      ((candsOf inv toks).length : Int) := min_le_right _ _
  have hk0 : 0 ≤ min (Int.fdiv y 2) ((candsOf inv toks).length : Int) :=
    le_min (Int.fdiv_nonneg (by omega) (by omega)) (by omega)
  obtain ⟨hs1nd, ⟨t1, ht1, ht1mem⟩, hs1len⟩ := drawMatchLoop_ok hm List.nodup_nil hk
  have hs1len' : (s1.length : Int) = min (Int.fdiv y 2) ((candsOf inv toks).length : Int) :=
    hs1len (by simpa using hk0)
  have hfdivy : Int.fdiv y 2 ≤ y := by
    rw [Int.fdiv_eq_ediv _ (by omega)]
    exact Int.ediv_le_self 2 (by omega)
  obtain ⟨hsnd, ⟨t2, ht2, ht2mem⟩, hslen⟩ := drawFillLoop_ok hf hs1nd
  have hs1sub : ∀ x ∈ s1, x ∈ candsOf inv toks := by
    intro x hx
    rw [ht1] at hx
    simpa using ht1mem x (by simpa using hx)
  have hy_s : (s.length : Int) = y := hslen (by
    rw [hs1len']
    exact le_trans (min_le_left _ _) hfdivy)
  have happ : s.length = s1.length + t2.length := by
    rw [ht2, List.length_append]
  refine ⟨hsnd, hy_s, s1, t2, ht2, hm, hs1len', hs1sub, ht2mem, by omega, ?_⟩
  intro hlt x
  have hkeq : min (Int.fdiv y 2) ((candsOf inv toks).length : Int) =
      ((candsOf inv toks).length : Int) := min_eq_right (le_of_lt hlt)
  have hlen : s1.length = (candsOf inv toks).length := by
    rw [hkeq] at hs1len'
    omega
  have hfs : s1.toFinset = (candsOf inv toks).toFinset := by
    apply Finset.eq_of_subset_of_card_le
    · intro z hz
      exact List.mem_toFinset.mpr (hs1sub z (List.mem_toFinset.mp hz))
    · rw [List.toFinset_card_of_nodup hs1nd, List.toFinset_card_of_nodup
        (nodup_candsOf inv toks), hlen]
  constructor
  · intro hx
    exact List.mem_toFinset.mp (hfs ▸ List.mem_toFinset.mpr hx)
  · intro hx
    exact List.mem_toFinset.mp (hfs ▸ List.mem_toFinset.mpr hx : x ∈ s1.toFinset)

theorem claim_C4_witness :
    (1 : Int) ≤ 4 ∧ (4 : Int) ≤ ((10 : Nat) : Int) ∧
      probeRowTokens [("a", [0]), ("b", [1])] 4 10 ["a"] [0] [1, 2, 3] = .ok [0, 1, 2, 3] ∧
      (([0, 1, 2, 3] : List Nat).Nodup ∧ (([0, 1, 2, 3] : List Nat).length : Int) = 4 ∧
        ∃ s1 t, ([0, 1, 2, 3] : List Nat) = s1 ++ t ∧
          drawMatchLoop (candsOf [("a", [0]), ("b", [1])] ["a"])
            (min (Int.fdiv 4 2) ((candsOf [("a", [0]), ("b", [1])] ["a"]).length : Int))
            [] [0] = some s1 ∧
          (s1.length : Int) =
            min (Int.fdiv 4 2) ((candsOf [("a", [0]), ("b", [1])] ["a"]).length : Int) ∧
          (∀ x ∈ s1, x ∈ candsOf [("a", [0]), ("b", [1])] ["a"]) ∧
          (∀ x ∈ t, x < 10) ∧
          (t.length : Int) =
            4 - min (Int.fdiv 4 2) ((candsOf [("a", [0]), ("b", [1])] ["a"]).length : Int) ∧
          (((candsOf [("a", [0]), ("b", [1])] ["a"]).length : Int) < Int.fdiv 4 2 →
            ∀ x, (x ∈ s1 ↔ x ∈ candsOf [("a", [0]), ("b", [1])] ["a"]))) :=
  ⟨by decide, by decide, by decide,
    @claim_C4 [("a", [0]), ("b", [1])] 4 10 ["a"] [0] [1, 2, 3] [0, 1, 2, 3]
      (by decide) (by decide) (by decide)⟩

/-- C8: the loop guards of probe_and_select can always be met: the target
k = min(floor(total_budget / 2), number of candidates) never exceeds the
candidate pool size, a realized stream enumerating the pool completes the
matched-draw loop, and under the precondition universe_size at least
total_budget every duplicate-free intermediate state has a realized stream
completing the random-fill loop. -/
theorem claim_C8 {inv : List (String × List Nat)} {toks : List String} {y : Int}
    {univ : Nat} (hy : 1 ≤ y) (hu : y ≤ (univ : Int)) :
    (min (Int.fdiv y 2) ((candsOf inv toks).length : Int)) ≤
      ((candsOf inv toks).length : Int) ∧
    (∃ ds1 s1, drawMatchLoop (candsOf inv toks)
      (min (Int.fdiv y 2) ((candsOf inv toks).length : Int)) [] ds1 = some s1) ∧
    (∀ s0 : List Nat, s0.Nodup → ∃ ds2 s2, drawFillLoop univ y s0 ds2 = .ok s2) := by
  refine ⟨min_le_right _ _, ?_, ?_⟩
  · have hterm := drawMatchLoop_terminating (nodup_candsOf inv toks)
      (show min (Int.fdiv y 2) ((candsOf inv toks).length : Int) ≤
          ((candsOf inv toks).length : Int) from min_le_right _ _)
      (List.range (candsOf inv toks).length)
      (fun j hj => List.mem_range.mp hj) [] List.nodup_nil
      (fun j hj hnotin => absurd (List.mem_range.mpr hj) hnotin)
    obtain ⟨s1, hs1⟩ := hterm
    exact ⟨List.range (candsOf inv toks).length, s1, hs1⟩
  · intro s0 hnd
    obtain ⟨s2, hs2⟩ := drawFillLoop_terminating univ (by omega) hu
      (List.range univ) (fun r hr => List.mem_range.mp hr) s0 hnd
      (fun x hx hnotin => absurd (List.mem_range.mpr hx) hnotin)
    exact ⟨List.range univ, s2, hs2⟩

theorem claim_C8_witness :
    (1 : Int) ≤ 2 ∧ (2 : Int) ≤ ((3 : Nat) : Int) ∧
      ((min (Int.fdiv 2 2) ((candsOf [("a", [0, 1])] ["a"]).length : Int)) ≤
        ((candsOf [("a", [0, 1])] ["a"]).length : Int) ∧
      (∃ ds1 s1, drawMatchLoop (candsOf [("a", [0, 1])] ["a"])
        (min (Int.fdiv 2 2) ((candsOf [("a", [0, 1])] ["a"]).length : Int)) [] ds1 = some s1) ∧
      (∀ s0 : List Nat, s0.Nodup →
        ∃ ds2 s2, drawFillLoop 3 2 s0 ds2 = .ok s2)) :=
  ⟨by decide, by decide, claim_C8 (by decide) (by decide)⟩

/-- C7: the candidate pool equals the set union of the posting lists of the
row's tokens that are present in the index (empty when none is), each
candidate occurs exactly once in the pool (no ranking by shared-token
count), and the selection depends on the row's tokens only through that
pool: two token sets with the same pool - however many tokens they share
with a candidate - yield identical selections on the same realized
draws. -/
theorem claim_C7 {inv : List (String × List Nat)} {toks1 toks2 : List String}
    {y : Int} {univ : Nat} {ds1 ds2 : List Nat}
    (hsame : candsOf inv toks1 = candsOf inv toks2) :
    (∀ x, x ∈ candsOf inv toks1 ↔
      ∃ tok ∈ toks1, ∃ l, dictFind inv tok = some l ∧ x ∈ l) ∧
    (candsOf inv toks1).Nodup ∧
    probeRowTokens inv y univ toks1 ds1 ds2 = probeRowTokens inv y univ toks2 ds1 ds2 := by
  refine ⟨fun x => mem_candsOf, nodup_candsOf inv toks1, ?_⟩
  simp only [probeRowTokens, hsame]

theorem claim_C7_witness :
    candsOf [("a", [0]), ("b", [0])] ["a"] = candsOf [("a", [0]), ("b", [0])] ["a", "b"] ∧
      ((∀ x, x ∈ candsOf [("a", [0]), ("b", [0])] ["a"] ↔
        ∃ tok ∈ ["a"], ∃ l, dictFind [("a", [0]), ("b", [0])] tok = some l ∧ x ∈ l) ∧
      (candsOf [("a", [0]), ("b", [0])] ["a"]).Nodup ∧
      probeRowTokens [("a", [0]), ("b", [0])] 4 5 ["a"] [0] [1, 2] =
        probeRowTokens [("a", [0]), ("b", [0])] 4 5 ["a", "b"] [0] [1, 2]) :=
  ⟨by decide, claim_C7 (by decide)⟩

/-- C1 counterexample: with an empty catalog (the input tables have no
catalog entry), a well-formed down_sample call does not complete: it
propagates the not-found KeyError raised inside copy_properties instead of
treating the absent entry as empty properties. -/
theorem claim_C1_counterexample :
    downSample ⟨[]⟩ (.df ⟨[0], [[Value.vStr "x"]], [0]⟩) (.df ⟨[0], [[Value.vStr "x"]], [0]⟩)
        1 2 1 1 [] [0] (fun _ => (([] : List Nat), ([0] : List Nat))) 10 11 =
      .exn "KeyError: Dataframe information (src) is not present in the catalog" := by
  decide

/-- C1 amended: down_sample does not tolerate an absent catalog entry: when
table_a has no entry (or table_b has none and the fresh identity of the
A-sample differs from it), the metadata-copy step raises a not-found
failure which down_sample propagates, so the call never returns a pair. -/
theorem claim_C1_amended {cat : Catalog} {A B : DataFrame} {aOid bOid : Nat}
    {size y : Int} {sw : List String} {perm : List Nat}
    {streams : Nat → List Nat × List Nat} {o1 o2 : Nat}
    (habs : cat.isPresent aOid = false ∨ (cat.isPresent bOid = false ∧ bOid ≠ o1)) :
    ∀ r, downSample cat (.df A) (.df B) aOid bOid size y sw perm streams o1 o2 ≠ .ok r := by
  intro r h
  obtain ⟨a1, b1, wfl, c2⟩ := r
  obtain ⟨inv, bIdx, pf, sIdx, r1, r2, -, -, -, -, -, -, h7, h8, -, -⟩ :=
    downSample_ok_inv h
  rcases habs with habs | ⟨habs, hne⟩
  · rw [copyProperties_absent habs o1] at h7
    cases h7
  · have hiff := copyProperties_ok_inv h7 bOid
    have hfalse : r1.1.isPresent bOid = false := by
      cases hval : r1.1.isPresent bOid with
      | false => rfl
      | true =>
        rcases hiff.mp hval with hc | hc
        · rw [habs] at hc
          cases hc
        · exact absurd hc hne
    rw [copyProperties_absent hfalse o2] at h8
    cases h8

theorem claim_C1_witness :
    (Catalog.isPresent ⟨[]⟩ 1 = false) ∧
      ∀ r, downSample ⟨[]⟩ (.df ⟨[0], [[Value.vStr "x"]], [0]⟩)
          (.df ⟨[0], [[Value.vStr "x"]], [0]⟩) 1 2 1 1 [] [0]
          (fun _ => (([] : List Nat), ([0] : List Nat))) 10 11 ≠ .ok r :=
  ⟨by decide, claim_C1_amended (Or.inl (by decide))⟩

/-- C2: evaluation at the failing input.  Take table_b with two rows whose
integer labels [1, 0] differ from the ordinal positions, and realized draw
order making the B-prime position set [0].  The probe stage
(`table_b.ix[b_tbl_indices]`, label-based) processes the row labelled 0 -
ordinal position 1 - while B-prime (`table_b.iloc[b_tbl_indices]`,
positional) holds the row at ordinal position 0, so the set of rows
tokenized and probed differs from the set of rows materialized as B-prime,
refuting the claim that they always coincide. -/
theorem claim_C2 :
    downSampleProbeFrame ⟨[1, 0], [[Value.vStr "aa"], [Value.vStr "bb"]], [0]⟩ 1 [0, 1] =
        .ok ⟨[0], [[Value.vStr "bb"]], [0]⟩ ∧
      downSampleBPrime ⟨[1, 0], [[Value.vStr "aa"], [Value.vStr "bb"]], [0]⟩ 1 [0, 1] =
        .ok ⟨[1], [[Value.vStr "aa"]], [0]⟩ ∧
      ([[Value.vStr "bb"]] : List Row) ≠ [[Value.vStr "aa"]] := by
  decide

/-- C3 counterexample: a call with negative y_param = -2 is not rejected:
down_sample runs to completion and returns a pair (with an empty A-sample),
refuting the claim that zero or negative size / y_param always fails
immediately with an input-validation error. -/
theorem claim_C3_counterexample :
    downSample ⟨[(1, []), (2, [])]⟩ (.df ⟨[0], [[Value.vStr "x"]], [0]⟩)
        (.df ⟨[0], [[Value.vStr "x"]], [0]⟩) 1 2 1 (-2) [] [0]
        (fun _ => (([] : List Nat), ([] : List Nat))) 10 11 =
      .ok (⟨[], [], [0]⟩, ⟨[0], [[Value.vStr "x"]], [0]⟩, false,
        ⟨[(1, []), (2, []), (10, []), (11, [])]⟩) := by
  decide

/-- C3 amended: down_sample fails immediately with an input-validation error
whenever an input is not a table, a table is empty, or size or y_param is
zero (negative values pass this validation); the failure happens before the
index is built and before the stop-word resource is read: the resulting
error is one fixed message, independent of the catalog, the stop-word set,
the realized draws and the probe streams, and no partial result is
returned. -/
theorem claim_C3_amended (aObj bObj : PyObj) (size y : Int)
    (hbad : aObj = .notDf ∨ bObj = .notDf ∨
      (∃ A, aObj = .df A ∧ A.rows.length = 0) ∨
      (∃ B, bObj = .df B ∧ B.rows.length = 0) ∨ size = 0 ∨ y = 0) :
    ∃ msg, ∀ (cat : Catalog) (aOid bOid : Nat) (sw : List String) (perm : List Nat)
      (streams : Nat → List Nat × List Nat) (o1 o2 : Nat),
      downSample cat aObj bObj aOid bOid size y sw perm streams o1 o2 = .exn msg := by
  cases aObj with
  | notDf =>
    exact ⟨"Input table A is not of type pandas DataFrame",
      fun cat aOid bOid sw perm streams o1 o2 => rfl⟩
  | df A =>
    cases bObj with
    | notDf =>
      exact ⟨"Input table B is not of type pandas DataFrame",
        fun cat aOid bOid sw perm streams o1 o2 => rfl⟩
    | df B =>
      have hempty : A.rows.length = 0 ∨ B.rows.length = 0 →
          ∃ msg, ∀ (cat : Catalog) (aOid bOid : Nat) (sw : List String) (perm : List Nat)
            (streams : Nat → List Nat × List Nat) (o1 o2 : Nat),
            downSample cat (.df A) (.df B) aOid bOid size y sw perm streams o1 o2 =
              .exn msg := by
        intro hz
        refine ⟨"Size of the input table is 0",
          fun cat aOid bOid sw perm streams o1 o2 => ?_⟩
        simp only [downSample]
        rw [if_pos hz]
      have hzero : ¬(A.rows.length = 0 ∨ B.rows.length = 0) → size = 0 ∨ y = 0 →
          ∃ msg, ∀ (cat : Catalog) (aOid bOid : Nat) (sw : List String) (perm : List Nat)
            (streams : Nat → List Nat × List Nat) (o1 o2 : Nat),
            downSample cat (.df A) (.df B) aOid bOid size y sw perm streams o1 o2 =
              .exn msg := by
        intro hz hsz
        refine ⟨"size or y_param cannot be zero (3rd and 4th parameter of downsample)",
          fun cat aOid bOid sw perm streams o1 o2 => ?_⟩
        simp only [downSample]
        rw [if_neg hz, if_pos hsz]
      rcases hbad with h | h | ⟨A', hA', hz⟩ | ⟨B', hB', hz⟩ | h | h
      · cases h
      · cases h
      · cases hA'
        exact hempty (Or.inl hz)
      · cases hB'
        exact hempty (Or.inr hz)
      · by_cases hz : A.rows.length = 0 ∨ B.rows.length = 0
        · exact hempty hz
        · exact hzero hz (Or.inl h)
      · by_cases hz : A.rows.length = 0 ∨ B.rows.length = 0
        · exact hempty hz
        · exact hzero hz (Or.inr h)

theorem claim_C3_witness :
    ((PyObj.df ⟨[0], [[Value.vStr "x"]], [0]⟩) = .notDf ∨
      (PyObj.df ⟨[0], [[Value.vStr "x"]], [0]⟩) = .notDf ∨
      (∃ A, (PyObj.df ⟨[0], [[Value.vStr "x"]], [0]⟩) = .df A ∧ A.rows.length = 0) ∨
      (∃ B, (PyObj.df ⟨[0], [[Value.vStr "x"]], [0]⟩) = .df B ∧ B.rows.length = 0) ∨
      (0 : Int) = 0 ∨ (2 : Int) = 0) ∧
      ∃ msg, ∀ (cat : Catalog) (aOid bOid : Nat) (sw : List String) (perm : List Nat)
        (streams : Nat → List Nat × List Nat) (o1 o2 : Nat),
        downSample cat (.df ⟨[0], [[Value.vStr "x"]], [0]⟩)
          (.df ⟨[0], [[Value.vStr "x"]], [0]⟩) aOid bOid 0 2 sw perm streams o1 o2 =
          .exn msg :=
  ⟨Or.inr (Or.inr (Or.inr (Or.inr (Or.inl rfl)))),
    claim_C3_amended (.df ⟨[0], [[Value.vStr "x"]], [0]⟩)
      (.df ⟨[0], [[Value.vStr "x"]], [0]⟩) 0 2
      (Or.inr (Or.inr (Or.inr (Or.inr (Or.inl rfl)))))⟩

/-- C5: for valid inputs the B-prime position set holds exactly
min(size, len(table_b)) distinct positions inside [0, len(table_b)); and a
call with size greater than len(table_b) still succeeds - returning with
the warning flag set rather than an error - with B-prime consisting of
every row of table_b. -/
theorem claim_C5 {cat : Catalog} {A B : DataFrame} {aOid bOid : Nat}
    {size y : Int} {sw : List String} {perm : List Nat}
    {streams : Nat → List Nat × List Nat} {o1 o2 : Nat}
    (hA : A.rows.length ≠ 0) (hB : B.rows.length ≠ 0)
    (hsz : 1 ≤ size) (hy : 1 ≤ y)
    (hlab : B.labels = defaultLabels B.rows.length)
    (hpermN : perm.Nodup)
    (hpermB : ∀ x ∈ perm, x < B.rows.length)
    (hpermL : B.rows.length ≤ perm.length)
    (hcatA : cat.isPresent aOid = true) (hcatB : cat.isPresent bOid = true)
    (hprobe : ∀ j, j < (bPositions size B.rows.length perm).length →
      (probeRow sw B.strCols (indexRows sw A.strCols A.rows 0 []) y A.rows.length
        (B.rows.getD ((bPositions size B.rows.length perm).getD j 0) [])
        (streams j).1 (streams j).2).isOk = true) :
    (bPositions size B.rows.length perm).length = min size.toNat B.rows.length ∧
    (bPositions size B.rows.length perm).Nodup ∧
    (∀ x ∈ bPositions size B.rows.length perm, x < B.rows.length) ∧
    (∃ a1 c2, downSample cat (.df A) (.df B) aOid bOid size y sw perm streams o1 o2 =
      .ok (a1, ilocFrame B (bPositions size B.rows.length perm),
        decide ((B.rows.length : Int) < size), c2)) ∧
    ((B.rows.length : Int) < size →
      (ilocFrame B (bPositions size B.rows.length perm)).rows.Perm B.rows) := by
  have hlen : (bPositions size B.rows.length perm).length =
      min size.toNat B.rows.length := by
    rw [bPositions, List.length_take]
    rcases le_total size (B.rows.length : Int) with h | h
    · rw [min_eq_left h]
      have h1 : size.toNat ≤ B.rows.length := by omega
      rw [min_eq_left (le_trans h1 hpermL), min_eq_left h1]
    · rw [min_eq_right h]
      have h1 : ((B.rows.length : Int)).toNat = B.rows.length := by omega
      rw [h1, min_eq_left hpermL, min_eq_right (by omega : B.rows.length ≤ size.toNat)]
  refine ⟨hlen, List.Nodup.sublist (List.take_sublist _ _) hpermN,
    fun x hx => hpermB x (List.take_subset _ _ hx), ?_, ?_⟩
  · obtain ⟨sIdx, c2, -, hrun⟩ := downSample_success hA hB hsz (by omega) hlab hpermB
      hpermL hcatA hcatB hprobe
    exact ⟨ilocFrame A sIdx, c2, hrun⟩
  · intro hlt
    have hple : perm.length ≤ B.rows.length := by
      have h1 : perm.toFinset ⊆ Finset.range B.rows.length := fun x hx =>
        Finset.mem_range.mpr (hpermB x (List.mem_toFinset.mp hx))
      have h2 := Finset.card_le_card h1
      rw [List.toFinset_card_of_nodup hpermN, Finset.card_range] at h2
      exact h2
    have hbp : bPositions size B.rows.length perm = perm := by
      rw [bPositions, min_eq_right (by omega : (B.rows.length : Int) ≤ size)]
      have h1 : ((B.rows.length : Int)).toNat = B.rows.length := by omega
      rw [h1, show B.rows.length = perm.length by omega, List.take_length]
    rw [hbp]
    show (perm.map (fun p => B.rows.getD p [])).Perm B.rows
    have hpr : perm.Perm (List.range B.rows.length) :=
      perm_range_of_nodup hpermN hpermB hpermL
    have hmap := hpr.map (fun p => B.rows.getD p [])
    rw [map_getD_range B.rows] at hmap
    exact hmap

theorem claim_C5_witness :
    ((DataFrame.rows ⟨[0], [[Value.vStr "x"]], [0]⟩).length ≠ 0 ∧
      (DataFrame.rows ⟨[0, 1], [[Value.vStr "x"], [Value.vStr "y"]], [0]⟩).length ≠ 0 ∧
      (1 : Int) ≤ 3 ∧ (1 : Int) ≤ 1) ∧
    ((bPositions 3 2 [0, 1]).length = min (3 : Int).toNat 2 ∧
      (bPositions 3 2 [0, 1]).Nodup ∧
      (∀ x ∈ bPositions 3 2 [0, 1], x < 2) ∧
      (∃ a1 c2, downSample ⟨[(1, []), (2, [])]⟩ (.df ⟨[0], [[Value.vStr "x"]], [0]⟩)
        (.df ⟨[0, 1], [[Value.vStr "x"], [Value.vStr "y"]], [0]⟩) 1 2 3 1 [] [0, 1]
        (fun _ => (([] : List Nat), ([0] : List Nat))) 10 11 =
        .ok (a1, ilocFrame ⟨[0, 1], [[Value.vStr "x"], [Value.vStr "y"]], [0]⟩
            (bPositions 3 2 [0, 1]),
          decide ((((2 : Nat)) : Int) < 3), c2)) ∧
      ((((2 : Nat)) : Int) < 3 →
        (ilocFrame ⟨[0, 1], [[Value.vStr "x"], [Value.vStr "y"]], [0]⟩
          (bPositions 3 2 [0, 1])).rows.Perm
          [[Value.vStr "x"], [Value.vStr "y"]])) :=
  ⟨⟨by decide, by decide, by decide, by decide⟩,
    @claim_C5 ⟨[(1, []), (2, [])]⟩ ⟨[0], [[Value.vStr "x"]], [0]⟩
      ⟨[0, 1], [[Value.vStr "x"], [Value.vStr "y"]], [0]⟩ 1 2 3 1 []
      [0, 1] (fun _ => (([] : List Nat), ([0] : List Nat))) 10 11
      (by decide) (by decide) (by decide) (by decide) (by decide) (by decide)
      (by decide) (by decide) (by decide) (by decide) (by decide)⟩

/-- C10: a successful down_sample call leaves both input tables unchanged -
the final state holds the same table_a and table_b - and the returned pair
consists of freshly materialized positional selections: each output frame
is built anew from in-range positions, and every one of its rows is a row
of the corresponding input table. -/
theorem claim_C10 {w : World} {aOid bOid : Nat} {size y : Int} {sw : List String}
    {perm : List Nat} {streams : Nat → List Nat × List Nat} {o1 o2 : Nat}
    {w' : World} {a1 b1 : DataFrame}
    (h : downSampleW w aOid bOid size y sw perm streams o1 o2 = .ok (w', a1, b1)) :
    w'.tableA = w.tableA ∧ w'.tableB = w.tableB ∧
    (∃ psA, a1 = ilocFrame w.tableA psA ∧ ∀ p ∈ psA, p < w.tableA.rows.length) ∧
    (∃ psB, b1 = ilocFrame w.tableB psB ∧ ∀ p ∈ psB, p < w.tableB.rows.length) ∧
    (∀ r ∈ a1.rows, r ∈ w.tableA.rows) ∧ (∀ r ∈ b1.rows, r ∈ w.tableB.rows) := by
  unfold downSampleW at h
  cases hds : downSample w.cat (.df w.tableA) (.df w.tableB) aOid bOid size y sw perm
      streams o1 o2 with
  | exn m => rw [hds] at h; cases h
  | hang => rw [hds] at h; cases h
  | ok res =>
    rw [hds] at h
    obtain ⟨a0, b0, wfl, c2⟩ := res
    cases h
    obtain ⟨inv, bIdx, pf, sIdx, r1, r2, -, -, -, -, h5, h6, -, -, -, -⟩ :=
      downSample_ok_inv hds
    obtain ⟨ha, hbndA⟩ := ilocSelect_ok_inv h5
    obtain ⟨hb, hbndB⟩ := ilocSelect_ok_inv h6
    subst ha hb
    have hmem : ∀ (t : DataFrame) (ps : List Nat), (∀ p ∈ ps, p < t.rows.length) →
        ∀ r ∈ (ilocFrame t ps).rows, r ∈ t.rows := by
      intro t ps hps r hr
      obtain ⟨p, hp, hpr⟩ := List.mem_map.mp hr
      have hplt := hps p hp
      rw [← hpr, List.getD_eq_getElem _ _ hplt]
      exact List.getElem_mem hplt
    exact ⟨rfl, rfl, ⟨sIdx, rfl, hbndA⟩, ⟨bIdx, rfl, hbndB⟩,
      hmem _ sIdx hbndA, hmem _ bIdx hbndB⟩

theorem claim_C10_witness :
    downSampleW ⟨⟨[0], [[Value.vStr "x"]], [0]⟩, ⟨[0], [[Value.vStr "x"]], [0]⟩,
        ⟨[(1, []), (2, [])]⟩⟩ 1 2 1 1 [] [0]
        (fun _ => (([] : List Nat), ([0] : List Nat))) 10 11 =
      .ok (⟨⟨[0], [[Value.vStr "x"]], [0]⟩, ⟨[0], [[Value.vStr "x"]], [0]⟩,
          ⟨[(1, []), (2, []), (10, []), (11, [])]⟩⟩,
        ⟨[0], [[Value.vStr "x"]], [0]⟩, ⟨[0], [[Value.vStr "x"]], [0]⟩) ∧
      ((World.tableA ⟨⟨[0], [[Value.vStr "x"]], [0]⟩, ⟨[0], [[Value.vStr "x"]], [0]⟩,
          ⟨[(1, []), (2, []), (10, []), (11, [])]⟩⟩) =
        (⟨[0], [[Value.vStr "x"]], [0]⟩ : DataFrame) ∧
      (World.tableB ⟨⟨[0], [[Value.vStr "x"]], [0]⟩, ⟨[0], [[Value.vStr "x"]], [0]⟩,
          ⟨[(1, []), (2, []), (10, []), (11, [])]⟩⟩) =
        (⟨[0], [[Value.vStr "x"]], [0]⟩ : DataFrame) ∧
      (∃ psA, (⟨[0], [[Value.vStr "x"]], [0]⟩ : DataFrame) =
        ilocFrame ⟨[0], [[Value.vStr "x"]], [0]⟩ psA ∧ ∀ p ∈ psA, p < 1) ∧
      (∃ psB, (⟨[0], [[Value.vStr "x"]], [0]⟩ : DataFrame) =
        ilocFrame ⟨[0], [[Value.vStr "x"]], [0]⟩ psB ∧ ∀ p ∈ psB, p < 1) ∧
      (∀ r ∈ [[Value.vStr "x"]], r ∈ [[Value.vStr "x"]]) ∧
      (∀ r ∈ [[Value.vStr "x"]], r ∈ [[Value.vStr "x"]])) :=
  ⟨by decide,
    @claim_C10 ⟨⟨[0], [[Value.vStr "x"]], [0]⟩, ⟨[0], [[Value.vStr "x"]], [0]⟩,
        ⟨[(1, []), (2, [])]⟩⟩ 1 2 1 1 [] [0]
      (fun _ => (([] : List Nat), ([0] : List Nat))) 10 11
      ⟨⟨[0], [[Value.vStr "x"]], [0]⟩, ⟨[0], [[Value.vStr "x"]], [0]⟩,
        ⟨[(1, []), (2, []), (10, []), (11, [])]⟩⟩
      ⟨[0], [[Value.vStr "x"]], [0]⟩ ⟨[0], [[Value.vStr "x"]], [0]⟩ (by decide)⟩

end Magellan
